import Mathlib

/-!
Verification development for the SSH session/scripting engine.

Shallow embedding of the session/output engine and the scripting engine:

* `TerminalOutputProcessor.normalize` / `stripPagerArtifacts`
  (src/main/utils/TerminalOutputProcessor.ts)
* `PromptDetector.isLikelyPrompt` / `buildPromptRegex`
  (src/main/utils/PromptDetector.ts)
* `SshExecutionService.createResult` (src/main/services/SshConnectionPool.ts)
* `ExpressionEvaluator` (ExpressionEvaluator.ts)
* `ScriptContext` (ScriptContext.ts)
* `ScriptExecutor.executeSteps` / `executeStep` (ScriptExecutor.ts) over the
  step handlers `print`, `exit`, `extract`, `if`

JavaScript strings are modelled as `List Char`; JavaScript numbers as exact
rationals represented by unnormalized integer fractions (`JNum`; all numeric
inputs appearing in the theorems below are small integers, on which IEEE
double arithmetic is exact, so this is a faithful model there).
Calls into the JavaScript `RegExp` built-in are abstracted as oracle
parameters, since `RegExp` is not code of this repository; the regexes the
code builds itself (prompt regex, pager regexes, the `${...}` substitution
scan) are modelled concretely.
-/

/-! ## Basic JavaScript string primitives -/

/-- The characters `String.prototype.trim` and `\s` treat as whitespace
(ASCII fragment: space, tab, LF, VT, FF, CR). -/
def jsIsWs (c : Char) : Bool :=
  c == ' ' || c == '\t' || c == '\n' || c == Char.ofNat 11 || c == Char.ofNat 12 || c == '\r'

/-- JavaScript `String.prototype.trim` (ASCII whitespace fragment). -/
def jsTrim (s : List Char) : List Char :=
  ((s.dropWhile jsIsWs).reverse.dropWhile jsIsWs).reverse

/-- Lower-casing of a character as used by `toLowerCase` (ASCII fragment). -/
def jsToLower (c : Char) : Char := c.toLower

/-- JavaScript `String.prototype.toLowerCase` (ASCII fragment). -/
def toLowerL (s : List Char) : List Char := s.map jsToLower

/-- JavaScript `String.prototype.includes`: substring containment. -/
def containsSeq (needle hay : List Char) : Bool :=
  match hay with
  | [] => needle.isEmpty
  | _ :: t => needle.isPrefixOf hay || containsSeq needle t

/-- JavaScript `String.prototype.substring` with two arguments: clamps both
indices to the string length and swaps them when `a > b`. -/
def jsSubstring (s : List Char) (a b : Nat) : List Char :=
  let n := s.length
  let a' := min a n
  let b' := min b n
  (s.take (max a' b')).drop (min a' b')

/-- JavaScript `String.prototype.substring` with one argument. -/
def jsSubstringFrom (s : List Char) (a : Nat) : List Char := s.drop a

/-- JavaScript `String.prototype.split` with a single-character separator
(total: the result list is never empty, `"".split` gives `[""]`). -/
def splitOnCharL (c : Char) : List Char → List (List Char)
  | [] => [[]]
  | h :: t =>
    match splitOnCharL c t with
    | [] => [[]]
    | r :: rs => if h == c then [] :: r :: rs else (h :: r) :: rs

/-- `Array.prototype.join` with a single-character separator. -/
def joinWithChar (c : Char) (ls : List (List Char)) : List Char :=
  List.intercalate [c] ls

/-! ## JavaScript numbers: `parseFloat`, `parseInt`, number-to-string -/

/-- Accumulate a digit run into a natural number. -/
def natOfDigits (ds : List Char) : Nat :=
  ds.foldl (fun acc c => acc * 10 + (c.toNat - '0'.toNat)) 0

/-- An exact rational represented as an unnormalized fraction (denominator
positive by construction); the model of a JavaScript number. -/
structure JNum where
  num : Int
  den : Nat
deriving DecidableEq

/-- The number 0. -/
def JNum.zero : JNum := ⟨0, 1⟩

/-- Numeric `a < b` by cross multiplication. -/
def jnumLt (a b : JNum) : Bool := a.num * (b.den : Int) < b.num * (a.den : Int)

/-- Numeric `a ≤ b` by cross multiplication. -/
def jnumLe (a b : JNum) : Bool := a.num * (b.den : Int) ≤ b.num * (a.den : Int)

/-- Numeric equality with zero. -/
def jnumIsZero (a : JNum) : Bool := a.num == 0

/-- `|a - b| < 0.0001`, the epsilon tolerance of `areEqual`, by cross
multiplication. -/
def jnumNearEq (a b : JNum) : Bool :=
  (a.num * (b.den : Int) - b.num * (a.den : Int)).natAbs * 10000 < a.den * b.den

/-- JavaScript `parseFloat` (decimal literals with optional sign, fraction
and exponent; `none` models `NaN`; the `Infinity` literal is not modelled as
no caller in this repository passes it). -/
def parseFloatQ (s : List Char) : Option JNum :=
  let s := s.dropWhile jsIsWs
  let (sgn, s) :=
    match s with
    | '-' :: t => ((-1 : Int), t)
    | '+' :: t => ((1 : Int), t)
    | _ => ((1 : Int), s)
  let intDigits := s.takeWhile Char.isDigit
  let s := s.dropWhile Char.isDigit
  let (fracDigits, s) :=
    match s with
    | '.' :: t => (t.takeWhile Char.isDigit, t.dropWhile Char.isDigit)
    | _ => ([], s)
  if intDigits.isEmpty && fracDigits.isEmpty then none
  else
    let mnum : Nat := natOfDigits intDigits * 10 ^ fracDigits.length + natOfDigits fracDigits
    let mden : Nat := 10 ^ fracDigits.length
    let (enum1, eden) : Nat × Nat :=
      match s with
      | 'e' :: t | 'E' :: t =>
        let (eneg, t) :=
          match t with
          | '-' :: u => (true, u)
          | '+' :: u => (false, u)
          | _ => (false, t)
        let eds := t.takeWhile Char.isDigit
        if eds.isEmpty then (1, 1)
        else if eneg then (1, 10 ^ natOfDigits eds) else (10 ^ natOfDigits eds, 1)
      | _ => (1, 1)
    some ⟨sgn * (mnum * enum1 : Nat), mden * eden⟩

/-- JavaScript `parseInt(·, 10)` (`none` models `NaN`). -/
def parseIntJs (s : List Char) : Option Int :=
  let s := s.dropWhile jsIsWs
  let (sgn, s) :=
    match s with
    | '-' :: t => ((-1 : Int), t)
    | '+' :: t => ((1 : Int), t)
    | _ => ((1 : Int), s)
  let ds := s.takeWhile Char.isDigit
  if ds.isEmpty then none else some (sgn * (natOfDigits ds : Int))

/-- The least `k` below the bound such that `n / d` has a terminating
decimal expansion with `k` fractional digits. -/
def decDigitsK (n d : Nat) : Nat → Option Nat
  | 0 => if n % d == 0 then some 0 else none
  | k + 1 =>
    match decDigitsK n d k with
    | some j => some j
    | none => if n * 10 ^ (k + 1) % d == 0 then some (k + 1) else none

/-- Render `m / 10^k` with exactly `k` fractional digits. -/
def renderDec (m k : Nat) : List Char :=
  if k == 0 then (Nat.repr m).data
  else
    let digits := (Nat.repr m).data
    let digits := List.replicate (k + 1 - digits.length) '0' ++ digits
    digits.take (digits.length - k) ++ '.' :: digits.drop (digits.length - k)

/-- Render a nonnegative `JNum` the way JavaScript prints it, restricted to
terminating decimals (JavaScript prints the shortest round-tripping form,
which agrees on those; a truncation approximates the rest, unexercised by
the theorems below). -/
def numToStringNN (a : JNum) : List Char :=
  let n := a.num.toNat
  match decDigitsK n a.den 17 with
  | some k => renderDec (n * 10 ^ k / a.den) k
  | none => renderDec (n * 10 ^ 17 / a.den) 17

/-- JavaScript number-to-string conversion. -/
def numToString (a : JNum) : List Char :=
  if a.num < 0 then '-' :: numToStringNN ⟨-a.num, a.den⟩ else numToStringNN a

/-! ## Dynamic values (`string | number | boolean | string[]`) -/

/-- The dynamic values stored in a `ScriptContext` variable map. -/
inductive JSValue where
  | vStr (s : String)
  | vNum (q : JNum)
  | vBool (b : Bool)
  | vList (l : List String)
deriving DecidableEq

/-- JavaScript `toString` on a context value (arrays join with `,`). -/
def jsToString : JSValue → String
  | .vStr s => s
  | .vNum q => String.mk (numToString q)
  | .vBool b => if b then "true" else "false"
  | .vList l => String.intercalate "," l

/-- JavaScript truthiness (`!v` is `jsFalsy v`). -/
def jsFalsy : JSValue → Bool
  | .vStr s => s == ""
  | .vNum q => jnumIsZero q
  | .vBool b => !b
  | .vList _ => false

/-! ## TerminalOutputProcessor.normalize

The source iterates over the input with an index, skipping ANSI CSI
sequences by advancing the index. The embedding below runs the same loop as
a character automaton with an explicit mode (`normal` scanning, just saw
`ESC`, inside a CSI sequence), which consumes the characters in the same
way the index arithmetic does. -/

/-- CSI sequences are terminated by an ASCII letter
(`TerminalOutputProcessor.isEscapeTerminator`). -/
def isEscapeTerminator (c : Char) : Bool :=
  (65 ≤ c.toNat && c.toNat ≤ 90) || (97 ≤ c.toNat && c.toNat ≤ 122)

/-- Write `c` at cursor position `pos` of the current line: overwrite in
place when inside the line, append at the end
(`currentLine.slice(0, cursorPos) + char + currentLine.slice(cursorPos + 1)`). -/
def writeChar (line : List Char) (pos : Nat) (c : Char) : List Char :=
  if pos < line.length then line.take pos ++ c :: line.drop (pos + 1) else line ++ [c]

/-- Mutable state of the normalize loop: finished lines, the line being
built and the cursor position within it. -/
structure NormSt where
  result : List (List Char)
  line : List Char
  pos : Nat
deriving DecidableEq

/-- Expand one tab by writing `n` spaces at the cursor (the loop body of the
tab case). -/
def tabExpand (st : NormSt) : Nat → NormSt
  | 0 => st
  | n + 1 => tabExpand { st with line := writeChar st.line st.pos ' ', pos := st.pos + 1 } n

/-- Process a single character in the normal scanning mode; the returned
flag records whether the character was `ESC` (entering escape handling). -/
def normProcessChar (st : NormSt) (c : Char) : NormSt × Bool :=
  if c == '\r' then ({ st with pos := 0 }, false)
  else if c == '\n' then (⟨st.result ++ [st.line], [], 0⟩, false)
  else if c == '\t' then (tabExpand st (8 - st.pos % 8), false)
  else if c == Char.ofNat 8 then (if st.pos > 0 then { st with pos := st.pos - 1 } else st, false)
  else if c == Char.ofNat 7 then (st, false)
  else if c == Char.ofNat 27 then (st, true)
  else if ' ' ≤ c then
    ({ st with line := writeChar st.line st.pos c, pos := st.pos + 1 }, false)
  else (st, false)

/-- The scanning mode of the normalize loop. -/
inductive NormMode where
  | normal
  | sawEsc
  | inCsi
deriving DecidableEq

/-- The normalize loop over the remaining input. -/
def normalizeGo : NormMode → NormSt → List Char → NormSt
  | _, st, [] => st
  | .inCsi, st, c :: rest =>
    if isEscapeTerminator c then normalizeGo .normal st rest else normalizeGo .inCsi st rest
  | .sawEsc, st, c :: rest =>
    if c == '[' then normalizeGo .inCsi st rest
    else
      let (st', esc) := normProcessChar st c
      normalizeGo (if esc then .sawEsc else .normal) st' rest
  | .normal, st, c :: rest =>
    let (st', esc) := normProcessChar st c
    normalizeGo (if esc then .sawEsc else .normal) st' rest

/-- `TerminalOutputProcessor.normalize`: linearize a raw terminal chunk. -/
def TerminalOutputProcessor.normalize (input : List Char) : List Char :=
  if input.isEmpty then []
  else
    let st := normalizeGo .normal ⟨[], [], 0⟩ input
    let result := if st.line.isEmpty then st.result else st.result ++ [st.line]
    joinWithChar '\n' result

/-! ## TerminalOutputProcessor pager stripping

`PAGER_REGEX` is `\r?(?:--\s*More\s*--|(?:-+\s*More\s*-+))[ ]?\r?` with the
case-insensitive flag; the four additional patterns are case-sensitive
global regexes. Each is modelled as a direct matcher returning the length
of the match at the head of the string. The token classes of these patterns
are pairwise disjoint, so the greedy matchers below agree with the
backtracking regex engine. -/

/-- Match `--\s*More\s*--` (case-insensitive) at the head, returning the
matched length. -/
def pagerAlt1 (s : List Char) : Option Nat :=
  match s with
  | '-' :: '-' :: r =>
    let ws1 := r.takeWhile jsIsWs
    let r1 := r.drop ws1.length
    if toLowerL (r1.take 4) == "more".data && r1.length ≥ 4 then
      let r2 := r1.drop 4
      let ws2 := r2.takeWhile jsIsWs
      let r3 := r2.drop ws2.length
      match r3 with
      | '-' :: '-' :: _ => some (2 + ws1.length + 4 + ws2.length + 2)
      | _ => none
    else none
  | _ => none

/-- Match `-+\s*More\s*-+` (case-insensitive) at the head. -/
def pagerAlt2 (s : List Char) : Option Nat :=
  let d1 := s.takeWhile (fun c => c == '-')
  if d1.isEmpty then none
  else
    let r := s.drop d1.length
    let ws1 := r.takeWhile jsIsWs
    let r1 := r.drop ws1.length
    if toLowerL (r1.take 4) == "more".data && r1.length ≥ 4 then
      let r2 := r1.drop 4
      let ws2 := r2.takeWhile jsIsWs
      let r3 := r2.drop ws2.length
      let d2 := r3.takeWhile (fun c => c == '-')
      if d2.isEmpty then none
      else some (d1.length + ws1.length + 4 + ws2.length + d2.length)
    else none

/-- Match the whole `PAGER_REGEX` at the head (optional leading CR, the
`More` group, optional space, optional CR). -/
def pagerFullAt (s : List Char) : Option Nat :=
  let (pre, s') := if s.head? == some '\r' then (1, s.tail) else (0, s)
  match pagerAlt1 s' <|> pagerAlt2 s' with
  | none => none
  | some g =>
    let rest := s'.drop g
    let (sp, rest') := if rest.head? == some ' ' then (1, rest.drop 1) else (0, rest)
    let cr := if rest'.head? == some '\r' then 1 else 0
    some (pre + g + sp + cr)

/-- Leftmost match of a head-anchored matcher: position and length. -/
def findMatchFrom (matchAt : List Char → Option Nat) : List Char → Nat → Option (Nat × Nat)
  | s, i =>
    match matchAt s with
    | some len => some (i, len)
    | none =>
      match s with
      | [] => none
      | _ :: t => findMatchFrom matchAt t (i + 1)

/-- Remove the substring `[i, i+len)`. -/
def removeAt (s : List Char) (i len : Nat) : List Char := s.take i ++ s.drop (i + len)

/-- Global regex replacement with the empty string: scan left to right,
skipping past each (non-empty) match. -/
def replaceAllGo (matchAt : List Char → Option Nat) : Nat → List Char → List Char
  | 0, s => s
  | _ + 1, [] => []
  | fuel + 1, c :: t =>
    match matchAt (c :: t) with
    | some (len + 1) => replaceAllGo matchAt fuel ((c :: t).drop (len + 1))
    | _ => c :: replaceAllGo matchAt fuel t

/-- Global replacement wrapper (fuel is the string length; every step
consumes at least one character). -/
def replaceAllWith (matchAt : List Char → Option Nat) (s : List Char) : List Char :=
  replaceAllGo matchAt s.length s

/-- Match a literal followed by `\s*`, returning the matched length. -/
def literalWsAt (lit : List Char) (s : List Char) : Option Nat :=
  if lit.isPrefixOf s then
    some (lit.length + ((s.drop lit.length).takeWhile jsIsWs).length)
  else none

/-- The global pattern `--More-- \(\d+%\)\s*`. -/
def pagerPercentAt (s : List Char) : Option Nat :=
  if "--More-- (".data.isPrefixOf s then
    let r := s.drop 10
    let ds := r.takeWhile Char.isDigit
    if ds.isEmpty then none
    else
      let r1 := r.drop ds.length
      if "%)".data.isPrefixOf r1 then
        some (10 + ds.length + 2 + ((r1.drop 2).takeWhile jsIsWs).length)
      else none
  else none

/-- The global pattern `<--- More --->\s*`. -/
def pagerAngleAt (s : List Char) : Option Nat := literalWsAt "<--- More --->".data s

/-- The global pattern `Press any key to continue\.\.\.\s*`. -/
def pagerPressKeyAt (s : List Char) : Option Nat :=
  literalWsAt "Press any key to continue...".data s

/-- The global pattern `Press SPACE for more, Q to quit\.\.\.\s*`. -/
def pagerPressSpaceAt (s : List Char) : Option Nat :=
  literalWsAt "Press SPACE for more, Q to quit...".data s

/-- One `if (pattern.test(text)) { sawPager = true; text = text.replace(pattern, '') }`
step for a global pattern. -/
def stripPattern (matchAt : List Char → Option Nat) (acc : List Char × Bool) :
    List Char × Bool :=
  if (findMatchFrom matchAt acc.1 0).isSome then (replaceAllWith matchAt acc.1, true)
  else acc

/-- `TerminalOutputProcessor.stripPagerArtifacts`: returns the cleaned text
and whether any pager marker was found. -/
def stripPagerArtifacts (text : List Char) : List Char × Bool :=
  let step0 :=
    match findMatchFrom pagerFullAt text 0 with
    | some (i, len) => (removeAt text i len, true)
    | none => (text, false)
  let step1 := stripPattern pagerPercentAt step0
  let step2 := stripPattern pagerAngleAt step1
  let step3 := stripPattern pagerPressKeyAt step2
  stripPattern pagerPressSpaceAt step3

/-! ## PromptDetector -/

/-- `PromptDetector.PROMPT_TERMINATORS`. -/
def PROMPT_TERMINATORS : List Char := ['#', '>', '$', '%']

/-- `PromptDetector.isLikelyPrompt`: heuristic prompt test on the line as
given (callers pass pre-trimmed lines). -/
def isLikelyPrompt (line : List Char) : Bool :=
  if line.isEmpty || line.length > 100 then false
  else
    match line.getLast? with
    | none => false
    | some lastChar =>
      if !(PROMPT_TERMINATORS.contains lastChar) then false
      else if containsSeq ['\t'] line || containsSeq [' ', ' '] line then false
      else if line.length > 50 then false
      else true

/-- The shape of the regex `PromptDetector.buildPromptRegex` synthesizes:
either `escaped(literal)\s*$` (no known terminator) or
`escaped(base)(?:\([^)]*\))?escaped(term)\s*$`. -/
inductive PromptPattern where
  | literalPat (lit : List Char)
  | basePat (base : List Char) (terminator : Char)
deriving DecidableEq

/-- `PromptDetector.buildPromptRegex`: find the trailing terminator, trim
the base, and build the mode-tolerant pattern. -/
def buildPromptRegex (promptLiteral : List Char) : PromptPattern :=
  match PROMPT_TERMINATORS.find? (fun t => [t].isSuffixOf promptLiteral) with
  | none => .literalPat promptLiteral
  | some t => .basePat (jsTrim (jsSubstring promptLiteral 0 (promptLiteral.length - 1))) t

/-- `\s*$` without the multiline flag: only whitespace up to the end of the
input. -/
def wsToEnd (s : List Char) : Bool := s.all jsIsWs

/-- Match a `PromptPattern` at the head of `s` (the optional parenthesised
mode group is `\([^)]*\)`). -/
def promptMatchAt (p : PromptPattern) (s : List Char) : Bool :=
  match p with
  | .literalPat lit => lit.isPrefixOf s && wsToEnd (s.drop lit.length)
  | .basePat base t =>
    base.isPrefixOf s &&
      (let rest := s.drop base.length
       (match rest with
        | '(' :: r =>
          let inner := r.takeWhile (fun c => c ≠ ')')
          (match r.drop inner.length with
           | ')' :: r2 => r2.head? == some t && wsToEnd (r2.drop 1)
           | _ => false)
        | _ => false)
       || (rest.head? == some t && wsToEnd (rest.drop 1)))

/-- `RegExp.prototype.test`: the pattern matches at some position. -/
def promptTestFrom (p : PromptPattern) : List Char → Bool
  | [] => promptMatchAt p []
  | c :: t => promptMatchAt p (c :: t) || promptTestFrom p t

/-- `promptRegex.test(s)`. -/
def promptTest (p : PromptPattern) (s : List Char) : Bool := promptTestFrom p s

/-! ## SshExecutionService.createResult (clean-output construction) -/

/-- The output field of `SshExecutionService.createResult`: normalize the
session buffer, drop the first line (command echo), drop the last line if
it matches the known prompt regex or looks like a prompt, join, and strip
residual pager artifacts. -/
def createResultOutput (buffer : List Char) (promptRegex : Option PromptPattern) :
    List Char :=
  let output := TerminalOutputProcessor.normalize buffer
  let lines := splitOnCharL '\n' output
  let lines := if lines.length > 0 then lines.tail else lines
  let lines :=
    if lines.length > 0 then
      match promptRegex with
      | some rx =>
        match lines.getLast? with
        | some lastLine =>
          if promptTest rx lastLine || isLikelyPrompt (jsTrim lastLine) then lines.dropLast
          else lines
        | none => lines
      | none => lines
    else lines
  let output := joinWithChar '\n' lines
  (stripPagerArtifacts output).1

/-! ## ScriptContext -/

/-- Literal brace characters (used by the `$\x7b...\x7d` substitution
syntax). -/
def lbraceChar : Char := Char.ofNat 123

/-- Closing brace. -/
def rbraceChar : Char := Char.ofNat 125

/-- `String.prototype.toLowerCase` on a Lean `String`. -/
def toLowerStr (s : String) : String := String.mk (toLowerL s.data)

/-- Insertion-ordered map update (JavaScript `Map.prototype.set`). -/
def mapSet (m : List (String × JSValue)) (k : String) (v : JSValue) :
    List (String × JSValue) :=
  match m with
  | [] => [(k, v)]
  | (k', v') :: rest => if k' == k then (k, v) :: rest else (k', v') :: mapSet rest k v

/-- JavaScript `Map.prototype.get`. -/
def mapGet (m : List (String × JSValue)) (k : String) : Option JSValue :=
  match m with
  | [] => none
  | (k', v') :: rest => if k' == k then some v' else mapGet rest k

/-- The output types of `ScriptOutputEvent` (shared/models). -/
inductive OutputType where
  | info
  | command
  | commandOutput
  | debug
  | warning
  | error
  | success
deriving DecidableEq

/-- The mutable state of `ScriptContext`: the case-folded variable map, the
accumulated output log, the last command output, and the debug flag. -/
structure ScriptContext where
  vars : List (String × JSValue)
  output : List String
  lastCommandOutput : String
  debugMode : Bool
deriving DecidableEq

/-- `ScriptContext.setVariable`: stores under the lower-cased name. -/
def ScriptContext.setVariable (ctx : ScriptContext) (name : String) (value : JSValue) :
    ScriptContext :=
  { ctx with vars := mapSet ctx.vars (toLowerStr name) value }

/-- `ScriptContext.getVariable`: looks up the lower-cased name. -/
def ScriptContext.getVariable (ctx : ScriptContext) (name : String) : Option JSValue :=
  mapGet ctx.vars (toLowerStr name)

/-- `ScriptContext.getVariableString`: `value?.toString() ?? ""`. -/
def ScriptContext.getVariableString (ctx : ScriptContext) (name : String) : String :=
  match ctx.getVariable name with
  | some v => jsToString v
  | none => ""

/-- `ScriptContext.getVariableList`: arrays as themselves, strings as
singletons, anything else as the empty list. -/
def ScriptContext.getVariableList (ctx : ScriptContext) (name : String) : List String :=
  match ctx.getVariable name with
  | some (.vList l) => l
  | some (.vStr s) => [s]
  | _ => []

/-- `ScriptContext.hasVariable`. -/
def ScriptContext.hasVariable (ctx : ScriptContext) (name : String) : Bool :=
  (ctx.getVariable name).isSome

/-- `ScriptContext.emitOutput`: debug lines are dropped unless debug mode is
on; the event emission itself has no effect on the modelled state. -/
def ScriptContext.emitOutput (ctx : ScriptContext) (message : String) (ty : OutputType) :
    ScriptContext :=
  if ty == .debug && !ctx.debugMode then ctx
  else { ctx with output := ctx.output ++ [message] }

/-- `ScriptContext.recordCommandOutput`. -/
def ScriptContext.recordCommandOutput (ctx : ScriptContext) (out : String)
    (captureVariable : Option String) : ScriptContext :=
  let ctx := { ctx with
    lastCommandOutput := out,
    vars := mapSet ctx.vars "_output" (.vStr out),
    output := ctx.output ++ [out] }
  match captureVariable with
  | some c => if c == "" then ctx else ctx.setVariable c (.vStr out)
  | none => ctx

/-- The entry loop of `ScriptContext.importScriptVars`: set each declared
variable only when its lower-cased name is not yet present. -/
def importVarsGo (m : List (String × JSValue)) :
    List (String × JSValue) → List (String × JSValue)
  | [] => m
  | (k, v) :: es =>
    let lowerKey := toLowerStr k
    importVarsGo (if (mapGet m lowerKey).isSome then m else mapSet m lowerKey v) es

/-- `ScriptContext.importScriptVars`. -/
def ScriptContext.importScriptVars (ctx : ScriptContext)
    (vars : List (String × JSValue)) : ScriptContext :=
  { ctx with vars := importVarsGo ctx.vars vars }

/-! ## Variable substitution (`ScriptContext.substituteVariables`) -/

/-- JavaScript `\w`. -/
def isWordChar (c : Char) : Bool := c.isAlpha || c.isDigit || c == '_'

/-- Global replacement of a fixed non-empty literal pattern
(`input.replace(/\$\x7b_output\x7d/g, out)`; the replacement text is spliced
verbatim and not rescanned). -/
def replaceAllLiteral (pat repl : List Char) : Nat → List Char → List Char
  | 0, s => s
  | _ + 1, [] => []
  | fuel + 1, c :: t =>
    if pat.isPrefixOf (c :: t) then repl ++ replaceAllLiteral pat repl fuel ((c :: t).drop pat.length)
    else c :: replaceAllLiteral pat repl fuel t

/-- The literal `$\x7b_output\x7d`. -/
def outputPat : List Char := '$' :: lbraceChar :: ("_output".data ++ [rbraceChar])

/-- `ScriptContext.resolveVariableExpression`: array indexing
`name[index]` (the index may be a literal integer or a variable holding
one), otherwise a simple lookup. -/
def ScriptContext.resolveVariableExpression (ctx : ScriptContext) (expr : List Char) :
    List Char :=
  let wordPart := expr.takeWhile isWordChar
  let rest := expr.drop wordPart.length
  let inner := jsSubstring rest 1 (rest.length - 1)
  if !wordPart.isEmpty && rest.head? == some '[' && rest.getLast? == some ']' &&
      rest.length ≥ 3 && !inner.contains ']' then
    let varName := String.mk wordPart
    let indexOpt :=
      match parseIntJs inner with
      | some i => some i
      | none =>
        match ctx.getVariable (String.mk inner) with
        | some v => parseIntJs (jsToString v).data
        | none => none
    match indexOpt with
    | none => []
    | some index =>
      let list := ctx.getVariableList varName
      if 0 ≤ index ∧ index < list.length then
        ((list.get? index.toNat).getD "").data
      else []
  else (ctx.getVariableString (String.mk expr)).data

/-- The scan for `$\x7b name \x7d` occurrences (the regex
`\$\x7b([^\x7d]+)\x7d` with a resolver callback; replacements are spliced
and not rescanned). -/
def substGo (resolve : List Char → List Char) : Nat → List Char → List Char
  | 0, s => s
  | _ + 1, [] => []
  | fuel + 1, c :: t =>
    if c == '$' && t.head? == some lbraceChar then
      let inner := (t.drop 1).takeWhile (fun d => d ≠ rbraceChar)
      let after := (t.drop 1).drop inner.length
      if !inner.isEmpty && after.head? == some rbraceChar then
        resolve inner ++ substGo resolve fuel (after.drop 1)
      else c :: substGo resolve fuel t
    else c :: substGo resolve fuel t

/-- `ScriptContext.substituteVariables`: first the special `_output`
replacement, then the general variable scan. -/
def ScriptContext.substituteVariables (ctx : ScriptContext) (input : String) : String :=
  if input == "" then input
  else
    let s1 := replaceAllLiteral outputPat ctx.lastCommandOutput.data input.data.length input.data
    let s2 := substGo ctx.resolveVariableExpression s1.length s1
    String.mk s2

/-! ## ExpressionEvaluator -/

/-- Single-quote character. -/
def quoteChar39 : Char := Char.ofNat 39

/-- Backslash character. -/
def backslashChar : Char := Char.ofNat 92

/-- One step of the quote-tracking state machine of
`ExpressionEvaluator.findLogicalOperator`: an unescaped quote either opens a
quoted region or, when it matches the opening quote, closes it. -/
def quoteStep (prev : Option Char) (inQ : Bool) (qc : Char) (c : Char) : Bool × Char :=
  if (c == '"' || c == quoteChar39) && (prev.isNone || prev != some backslashChar) then
    if !inQ then (true, c)
    else if c == qc then (false, qc)
    else (inQ, qc)
  else (inQ, qc)

/-- Fold the quote state machine over a character list, threading the
previous character for the escape check. -/
def quoteFold (prev : Option Char) (inQ : Bool) (qc : Char) : List Char → Bool × Char
  | [] => (inQ, qc)
  | c :: rs =>
    let (inQ', qc') := quoteStep prev inQ qc c
    quoteFold (some c) inQ' qc' rs

/-- Position `i` of `s` lies inside a quoted literal: the quote state after
the scanner has processed characters `0..i` is "in quote". -/
def inQuoteAt (s : List Char) (i : Nat) : Bool :=
  (quoteFold none false ' ' (s.take (i + 1))).1

/-- The scanning loop of `ExpressionEvaluator.findLogicalOperator`: advance
the quote state for the current character, then match the operator token
case-insensitively when outside quotes; the loop stops at
`expression.length - op.length`. -/
def findLogOpAux (op : List Char) (limit : Nat) :
    List Char → Nat → Option Char → Bool → Char → Option Nat
  | [], _, _, _, _ => none
  | c :: rs, i, prev, inQ, qc =>
    if i < limit then
      let (inQ', qc') := quoteStep prev inQ qc c
      if !inQ' && (toLowerL op).isPrefixOf (toLowerL (c :: rs)) then some i
      else findLogOpAux op limit rs (i + 1) (some c) inQ' qc'
    else none

/-- `ExpressionEvaluator.findLogicalOperator` (also used as `findOperator`):
the first occurrence of `op` outside quotes, `none` for `-1`. -/
def findLogicalOperator (s op : List Char) : Option Nat :=
  findLogOpAux op (s.length - op.length) s 0 none false ' '

/-- An operator index counts only when strictly positive (every use site
checks `index > 0`). -/
def opIdx (s op : List Char) : Option Nat :=
  match findLogicalOperator s op with
  | some i => if 0 < i then some i else none
  | none => none

/-- `ExpressionEvaluator.resolveValue`: quoted literal, `$\x7b...\x7d`
substitution, variable lookup, numeric literal, or the literal text. -/
def ExpressionEvaluator.resolveValue (ctx : ScriptContext) (expr0 : List Char) : JSValue :=
  let expr := jsTrim expr0
  if (expr.head? == some '"' && expr.getLast? == some '"') ||
      (expr.head? == some quoteChar39 && expr.getLast? == some quoteChar39) then
    .vStr (String.mk (jsSubstring expr 1 (expr.length - 1)))
  else if containsSeq ['$', lbraceChar] expr then
    .vStr (ctx.substituteVariables (String.mk expr))
  else if ctx.hasVariable (String.mk expr) then
    (ctx.getVariable (String.mk expr)).getD (.vStr "")
  else
    match parseFloatQ expr with
    | some n => .vNum n
    | none => .vStr (String.mk expr)

/-- `ExpressionEvaluator.resolveStringValue`. -/
def ExpressionEvaluator.resolveStringValue (ctx : ScriptContext) (expr : List Char) :
    String :=
  jsToString (ExpressionEvaluator.resolveValue ctx expr)

/-- `ExpressionEvaluator.resolveNumeric` (non-numeric resolves to 0). -/
def ExpressionEvaluator.resolveNumeric (ctx : ScriptContext) (expr : List Char) : JNum :=
  match ExpressionEvaluator.resolveValue ctx expr with
  | .vNum q => q
  | v => (parseFloatQ (jsToString v).data).getD JNum.zero

/-- `ExpressionEvaluator.extractPattern`: strip quotes or slashes around a
regex pattern. -/
def ExpressionEvaluator.extractPattern (expr0 : List Char) : List Char :=
  let expr := jsTrim expr0
  if (expr.head? == some '"' && expr.getLast? == some '"') ||
      (expr.head? == some quoteChar39 && expr.getLast? == some quoteChar39) then
    jsSubstring expr 1 (expr.length - 1)
  else if expr.head? == some '/' && expr.getLast? == some '/' then
    jsSubstring expr 1 (expr.length - 1)
  else expr

/-- `ExpressionEvaluator.areEqual`: numeric comparison with epsilon
tolerance when both sides parse as numbers, otherwise case-insensitive
string equality. -/
def ExpressionEvaluator.areEqual (l r : JSValue) : Bool :=
  let ls := jsToString l
  let rs := jsToString r
  match parseFloatQ ls.data, parseFloatQ rs.data with
  | some ln, some rn => jnumNearEq ln rn
  | _, _ => toLowerStr ls == toLowerStr rs

/-- `ExpressionEvaluator.isTruthy`. -/
def ExpressionEvaluator.isTruthy : JSValue → Bool
  | .vBool b => b
  | .vNum q => !jnumIsZero q
  | .vStr s => s != "" && toLowerStr s != "false"
  | .vList l => !l.isEmpty

/-- `ExpressionEvaluator.evaluateComparison`: suffix tests, then the flat
operator list in source priority order, otherwise a truthiness test.
`rxTestCI pattern text` models `new RegExp(pattern, "i").test(text)` with
the try/catch returning false on an invalid pattern. -/
def ExpressionEvaluator.evaluateComparison (rxTestCI : String → String → Bool)
    (ctx : ScriptContext) (expression : List Char) : Bool :=
  let lowerExpr := toLowerL expression
  if " is empty".data.isSuffixOf lowerExpr then
    let varName := jsTrim (jsSubstring expression 0 (expression.length - 9))
    let value := ExpressionEvaluator.resolveValue ctx varName
    jsFalsy value || jsToString value == ""
  else if " is not empty".data.isSuffixOf lowerExpr then
    let varName := jsTrim (jsSubstring expression 0 (expression.length - 13))
    let value := ExpressionEvaluator.resolveValue ctx varName
    !jsFalsy value && jsToString value != ""
  else if " is defined".data.isSuffixOf lowerExpr then
    let varName := jsTrim (jsSubstring expression 0 (expression.length - 11))
    ctx.hasVariable (String.mk varName)
  else if " is not defined".data.isSuffixOf lowerExpr then
    let varName := jsTrim (jsSubstring expression 0 (expression.length - 15))
    !ctx.hasVariable (String.mk varName)
  else
    match opIdx expression " matches ".data with
    | some i =>
      let left := jsToString (ExpressionEvaluator.resolveValue ctx (jsSubstring expression 0 i))
      let pattern :=
        ExpressionEvaluator.extractPattern (jsTrim (jsSubstringFrom expression (i + 9)))
      rxTestCI (String.mk pattern) left
    | none =>
    match opIdx expression " contains ".data with
    | some i =>
      let left := jsToString (ExpressionEvaluator.resolveValue ctx (jsSubstring expression 0 i))
      let right :=
        ExpressionEvaluator.resolveStringValue ctx (jsTrim (jsSubstringFrom expression (i + 10)))
      containsSeq (toLowerStr right).data (toLowerStr left).data
    | none =>
    match opIdx expression " startswith ".data with
    | some i =>
      let left := jsToString (ExpressionEvaluator.resolveValue ctx (jsSubstring expression 0 i))
      let right :=
        ExpressionEvaluator.resolveStringValue ctx (jsTrim (jsSubstringFrom expression (i + 12)))
      (toLowerStr right).data.isPrefixOf (toLowerStr left).data
    | none =>
    match opIdx expression " endswith ".data with
    | some i =>
      let left := jsToString (ExpressionEvaluator.resolveValue ctx (jsSubstring expression 0 i))
      let right :=
        ExpressionEvaluator.resolveStringValue ctx (jsTrim (jsSubstringFrom expression (i + 10)))
      (toLowerStr right).data.isSuffixOf (toLowerStr left).data
    | none =>
    match opIdx expression " != ".data with
    | some i =>
      !ExpressionEvaluator.areEqual
        (ExpressionEvaluator.resolveValue ctx (jsSubstring expression 0 i))
        (ExpressionEvaluator.resolveValue ctx (jsSubstringFrom expression (i + 4)))
    | none =>
    match opIdx expression " == ".data with
    | some i =>
      ExpressionEvaluator.areEqual
        (ExpressionEvaluator.resolveValue ctx (jsSubstring expression 0 i))
        (ExpressionEvaluator.resolveValue ctx (jsSubstringFrom expression (i + 4)))
    | none =>
    match opIdx expression " >= ".data with
    | some i =>
      jnumLe (ExpressionEvaluator.resolveNumeric ctx (jsSubstringFrom expression (i + 4)))
        (ExpressionEvaluator.resolveNumeric ctx (jsSubstring expression 0 i))
    | none =>
    match opIdx expression " <= ".data with
    | some i =>
      jnumLe (ExpressionEvaluator.resolveNumeric ctx (jsSubstring expression 0 i))
        (ExpressionEvaluator.resolveNumeric ctx (jsSubstringFrom expression (i + 4)))
    | none =>
    match opIdx expression " > ".data with
    | some i =>
      jnumLt (ExpressionEvaluator.resolveNumeric ctx (jsSubstringFrom expression (i + 3)))
        (ExpressionEvaluator.resolveNumeric ctx (jsSubstring expression 0 i))
    | none =>
    match opIdx expression " < ".data with
    | some i =>
      jnumLt (ExpressionEvaluator.resolveNumeric ctx (jsSubstring expression 0 i))
        (ExpressionEvaluator.resolveNumeric ctx (jsSubstringFrom expression (i + 3)))
    | none =>
      ExpressionEvaluator.isTruthy (ExpressionEvaluator.resolveValue ctx expression)

/-- The recursion of `ExpressionEvaluator.evaluate`, with explicit fuel.
Every recursive call of the source is on a strict substring, so any fuel
above the expression length computes the source's value (see
`evalGo_fuel_congr`). -/
def evalGo (rxTestCI : String → String → Bool) (ctx : ScriptContext) :
    Nat → List Char → Bool
  | 0, _ => false
  | fuel + 1, expression =>
    if (jsTrim expression).isEmpty then false
    else
      let expr := jsTrim expression
      match opIdx expr " and ".data with
      | some i =>
        evalGo rxTestCI ctx fuel (jsSubstring expr 0 i) &&
          evalGo rxTestCI ctx fuel (jsSubstringFrom expr (i + 5))
      | none =>
      match opIdx expr " or ".data with
      | some i =>
        evalGo rxTestCI ctx fuel (jsSubstring expr 0 i) ||
          evalGo rxTestCI ctx fuel (jsSubstringFrom expr (i + 4))
      | none =>
        if "not ".data.isPrefixOf (toLowerL expr) then
          !(evalGo rxTestCI ctx fuel (jsSubstringFrom expr 4))
        else if expr.head? == some '(' && expr.getLast? == some ')' then
          evalGo rxTestCI ctx fuel (jsSubstring expr 1 (expr.length - 1))
        else ExpressionEvaluator.evaluateComparison rxTestCI ctx expr

/-- `ExpressionEvaluator.evaluate`. -/
def ExpressionEvaluator.evaluate (rxTestCI : String → String → Bool)
    (ctx : ScriptContext) (expression : String) : Bool :=
  evalGo rxTestCI ctx (expression.data.length + 1) expression.data

/-! ## Script steps, command results and handlers -/

/-- One match of a global regex: the full match and its capture groups
(`none` models a non-participating group). -/
structure RegexMatch where
  full : String
  groups : List (Option String)
deriving DecidableEq

/-- Oracle for the JavaScript `RegExp` built-in (not code of this
repository): `testCI p t` is `new RegExp(p, "i").test(t)` with the
surrounding try/catch, `validGM p` is the error message when
`new RegExp(p, "gm")` throws, and `execAllGM p s` is the list of matches
collected by the `regex.exec` loop. -/
structure RegexEngine where
  testCI : String → String → Bool
  validGM : String → Option String
  execAllGM : String → String → List RegexMatch

/-- The `ControlFlow` tags (`normal`, `break`, `continue`, `exit`);
`break`/`continue` are Lean keywords, hence `brk`/`cont`. -/
inductive ControlFlow where
  | normal
  | brk
  | cont
  | exit
deriving DecidableEq

/-- `CommandResult` from IScriptCommand.ts. -/
structure CommandResult where
  success : Bool
  controlFlow : ControlFlow
  exitMessage : Option String := none
  error : Option String := none
deriving DecidableEq

/-- `successResult()`. -/
def successResult : CommandResult := { success := true, controlFlow := .normal }

/-- `errorResult(error)`. -/
def errorResult (e : String) : CommandResult :=
  { success := false, controlFlow := .normal, error := some e }

/-- `exitResult(message, success)`. -/
def exitResult (message : String) (success : Bool) : CommandResult :=
  { success := success, controlFlow := .exit, exitMessage := some message }

/-- `breakResult()`. -/
def breakResult : CommandResult := { success := true, controlFlow := .brk }

/-- A value that is either a string or a string array (`extract.into`). -/
inductive StrOrList where
  | str (v : String)
  | list (vs : List String)
deriving DecidableEq

/-- JavaScript falsiness of a `StrOrList` (an empty array is truthy). -/
def StrOrList.falsy : StrOrList → Bool
  | .str v => v == ""
  | .list _ => false

/-- `ExtractOptions` (shared/models): `from`/`match` are Lean keywords,
hence `fromVar`/`matchOpt`. -/
structure ExtractOptions where
  fromVar : String
  pattern : String
  into : StrOrList
  matchOpt : Option String
deriving DecidableEq

/-- The step kinds modelled here (the handler map of ScriptExecutor.ts also
registers send/set/wait/foreach/while/readfile/writefile/input/updatecolumn,
which no claim below needs). -/
inductive StepType where
  | print
  | exit
  | extract
  | ifStep
deriving DecidableEq

/-- `ScriptStep` restricted to the fields the modelled handlers read; `then`
and `else` blocks are nested step lists. -/
inductive ScriptStep where
  | mk (type : StepType) (value : Option String) (condition : Option String)
      (extract : Option ExtractOptions) (onError : Option String)
      (thenSteps : List ScriptStep) (elseSteps : List ScriptStep)

/-- Step kind. -/
def ScriptStep.type : ScriptStep → StepType
  | .mk t _ _ _ _ _ _ => t

/-- Scalar step value. -/
def ScriptStep.value : ScriptStep → Option String
  | .mk _ v _ _ _ _ _ => v

/-- `if`/`while` condition. -/
def ScriptStep.condition : ScriptStep → Option String
  | .mk _ _ c _ _ _ _ => c

/-- Extract options. -/
def ScriptStep.extract : ScriptStep → Option ExtractOptions
  | .mk _ _ _ e _ _ _ => e

/-- `on_error` policy. -/
def ScriptStep.onError : ScriptStep → Option String
  | .mk _ _ _ _ o _ _ => o

/-- `then` block. -/
def ScriptStep.thenSteps : ScriptStep → List ScriptStep
  | .mk _ _ _ _ _ t _ => t

/-- `else` block. -/
def ScriptStep.elseSteps : ScriptStep → List ScriptStep
  | .mk _ _ _ _ _ _ e => e

/-- `String(step.value || default)`: an absent or empty value falls back to
the default. -/
def jsOrDefault (o : Option String) (d : String) : String :=
  match o with
  | some v => if v == "" then d else v
  | none => d

/-- `PrintCommand.execute`. -/
def PrintCommand.execute (step : ScriptStep) (ctx : ScriptContext) :
    CommandResult × ScriptContext :=
  let rawMessage := jsOrDefault step.value ""
  let message := ctx.substituteVariables rawMessage
  let ctx :=
    if rawMessage != message then
      (ctx.emitOutput ("[PRINT] Raw: \"" ++ rawMessage ++ "\"") .debug).emitOutput
        ("  Resolved: \"" ++ message ++ "\"") .debug
    else ctx.emitOutput ("[PRINT] \"" ++ message ++ "\"") .debug
  (successResult, ctx.emitOutput message .commandOutput)

/-- `ExitCommand.execute`: classify the exit as failure when the message
contains "fail" or "error". -/
def ExitCommand.execute (step : ScriptStep) (ctx : ScriptContext) :
    CommandResult × ScriptContext :=
  let rawMessage := jsOrDefault step.value "Script exited"
  let message := ctx.substituteVariables rawMessage
  let isFailure := containsSeq "fail".data (toLowerStr message).data ||
    containsSeq "error".data (toLowerStr message).data
  let exitType := if isFailure then "FAILURE" else "SUCCESS"
  let ctx := ctx.emitOutput
    ("[EXIT] Terminating script (" ++ exitType ++ "): \"" ++ message ++ "\"") .debug
  let ctx := ctx.emitOutput message (if isFailure then .error else .success)
  (exitResult message (!isFailure), ctx)

/-- `ExtractCommand.setEmptyResults`. -/
def setEmptyResults (into : StrOrList) (ctx : ScriptContext) : ScriptContext :=
  let intoVars := match into with | .list vs => vs | .str v => [v]
  intoVars.foldl (fun c v => c.setVariable v (.vStr "")) ctx

/-- `m[i] || ""` on a group list. -/
def groupVal (m : List (Option String)) (i : Nat) : String :=
  match m.get? i with
  | some (some s) => s
  | _ => ""

/-- Template rendering of a possibly-undefined group. -/
def optDisplay : Option String → String
  | some s => s
  | none => "undefined"

/-- The debug rendering of one match's groups. -/
def groupsDisplay (m : List (Option String)) : String :=
  String.intercalate ", "
    (m.enum.map (fun p => "group" ++ toString (p.1 + 1) ++ "=\"" ++ optDisplay p.2 ++ "\""))

/-- The debug preview loop over the first `previewCount` matches. -/
def emitMatchPreviews (ctx : ScriptContext) (ms : List (List (Option String)))
    (previewCount : Nat) : ScriptContext :=
  ((ms.take previewCount).enum).foldl
    (fun c p => c.emitOutput ("  Match[" ++ toString p.1 ++ "]: " ++ groupsDisplay p.2) .debug)
    ctx

/-- The debug preview of an assigned array value. -/
def valuesPreview (values : List String) : String :=
  if values.length ≤ 3 then
    String.intercalate ", " (values.map (fun v => "\"" ++ v ++ "\""))
  else
    "\"" ++ values.headD "" ++ "\", \"" ++ (values.get? 1).getD "" ++ "\", ... +" ++
      toString (values.length - 2)

/-- The per-variable assignment loop for `match: all`: each destination
variable receives the array of its group's value across every match. -/
def assignAllLoop (selectedMatches : List (List (Option String))) :
    List (Nat × String) → ScriptContext → ScriptContext
  | [], ctx => ctx
  | (i, varName) :: rest, ctx =>
    let values := selectedMatches.map (fun m => groupVal m i)
    let ctx := ctx.setVariable varName (.vList values)
    let ctx := ctx.emitOutput
      ("  Result: " ++ varName ++ " = [" ++ valuesPreview values ++ "]") .debug
    assignAllLoop selectedMatches rest ctx

/-- The per-variable assignment loop for a single selected match. -/
def assignSingleLoop (matchGroups : List (Option String)) :
    List (Nat × String) → ScriptContext → ScriptContext
  | [], ctx => ctx
  | (i, varName) :: rest, ctx =>
    let value := groupVal matchGroups i
    let ctx := ctx.setVariable varName (.vStr value)
    let ctx := ctx.emitOutput ("  Result: " ++ varName ++ " = \"" ++ value ++ "\"") .debug
    assignSingleLoop matchGroups rest ctx

/-- The match-selection block of `ExtractCommand.execute`: pick the first,
last, all, or a numerically indexed match (with an out-of-range or
non-numeric index falling back to the first match), emitting the debug
line of the taken branch. -/
def extractSelect (matchOption : String) (allMatches : List (List (Option String)))
    (m0 : List (Option String)) (ctx : ScriptContext) :
    List (List (Option String)) × ScriptContext :=
  if matchOption == "first" then
    ([m0], ctx.emitOutput "  Using: first match" .debug)
  else if matchOption == "last" then
    ([allMatches.getLastD m0], ctx.emitOutput "  Using: last match" .debug)
  else if matchOption == "all" then
    (allMatches, ctx.emitOutput
      ("  Using: all " ++ toString allMatches.length ++ " matches") .debug)
  else
    match parseIntJs matchOption.data with
    | some index =>
      if 0 ≤ index ∧ index < allMatches.length then
        ([(allMatches.get? index.toNat).getD m0],
          ctx.emitOutput ("  Using: match at index " ++ toString index) .debug)
      else
        ([m0], ctx.emitOutput
          ("  Using: first match (invalid index " ++ matchOption ++ ")") .debug)
    | none =>
      ([m0], ctx.emitOutput
        ("  Using: first match (invalid index " ++ matchOption ++ ")") .debug)

/-- The variable-assignment block of `ExtractCommand.execute`: arrays for
`match: all`, the single selected match's groups otherwise. -/
def extractAssign (matchOption : String) (selectedMatches : List (List (Option String)))
    (intoVars : List String) (ctx : ScriptContext) : ScriptContext :=
  if matchOption == "all" then assignAllLoop selectedMatches intoVars.enum ctx
  else assignSingleLoop (selectedMatches.headD []) intoVars.enum ctx

/-- `ExtractCommand.execute`: validate options, run the global regex over
the source variable, select first/last/all/indexed matches and assign the
destination variables. -/
def ExtractCommand.execute (eng : RegexEngine) (step : ScriptStep) (ctx : ScriptContext) :
    CommandResult × ScriptContext :=
  match step.extract with
  | none => (errorResult "Extract options not specified", ctx)
  | some extract =>
    if extract.fromVar == "" then (errorResult "Extract requires \"from\" variable", ctx)
    else if extract.pattern == "" then (errorResult "Extract requires \"pattern\"", ctx)
    else if extract.into.falsy then (errorResult "Extract requires \"into\" variable", ctx)
    else
      let intoVars := match extract.into with | .list vs => vs | .str v => [v]
      let ctx := ctx.emitOutput
        ("[EXTRACT] from: " ++ extract.fromVar ++ ", pattern: /" ++ extract.pattern ++ "/") .debug
      let ctx := ctx.emitOutput
        ("  Into variables: [" ++ String.intercalate ", " intoVars ++ "]") .debug
      let source := ctx.getVariableString extract.fromVar
      if source == "" then
        let ctx := ctx.emitOutput "  Source is empty, setting empty results" .debug
        (successResult, setEmptyResults extract.into ctx)
      else
        let sourcePreview :=
          if source.length > 80 then String.mk (source.data.take 77) ++ "..." else source
        let ctx := ctx.emitOutput
          ("  Source (" ++ toString source.length ++ " chars): \"" ++ sourcePreview ++ "\"")
          .debug
        match eng.validGM extract.pattern with
        | some msg => (errorResult ("Invalid regex pattern: " ++ msg), ctx)
        | none =>
          let raw := eng.execAllGM extract.pattern source
          let allMatches := raw.map
            (fun m => if m.groups.length > 0 then m.groups else [some m.full])
          let ctx := ctx.emitOutput
            ("  Found " ++ toString allMatches.length ++ " match(es)") .debug
          match allMatches with
          | [] =>
            let ctx := ctx.emitOutput "  No matches, setting empty results" .debug
            (successResult, setEmptyResults extract.into ctx)
          | m0 :: _ =>
            let ctx := emitMatchPreviews ctx allMatches (min allMatches.length 3)
            let ctx :=
              if allMatches.length > 3 then
                ctx.emitOutput ("  ... and " ++ toString (allMatches.length - 3) ++
                  " more matches") .debug
              else ctx
            let matchOption := jsOrDefault extract.matchOpt "first"
            let (selectedMatches, ctx) := extractSelect matchOption allMatches m0 ctx
            (successResult, extractAssign matchOption selectedMatches intoVars ctx)

/-- `IfCommand.execute`: evaluate the condition and run the `then` or
`else` block through the executor callback. -/
def IfCommand.execute (eng : RegexEngine)
    (recurse : List ScriptStep → ScriptContext → CommandResult × ScriptContext)
    (step : ScriptStep) (ctx : ScriptContext) : CommandResult × ScriptContext :=
  match step.condition with
  | none => (errorResult "If requires a condition", ctx)
  | some cond =>
    if cond == "" then (errorResult "If requires a condition", ctx)
    else
      let ctx := ctx.emitOutput ("[IF] Evaluating: \"" ++ cond ++ "\"") .debug
      let resolvedCondition := ctx.substituteVariables cond
      let ctx :=
        if resolvedCondition != cond then
          ctx.emitOutput ("  Resolved: \"" ++ resolvedCondition ++ "\"") .debug
        else ctx
      let conditionMet := ExpressionEvaluator.evaluate eng.testCI ctx cond
      if conditionMet then
        if !step.thenSteps.isEmpty then
          recurse step.thenSteps (ctx.emitOutput "  Result: true -> taking THEN branch" .debug)
        else (successResult, ctx.emitOutput "  Result: true (no THEN block)" .debug)
      else
        if !step.elseSteps.isEmpty then
          recurse step.elseSteps (ctx.emitOutput "  Result: false -> taking ELSE branch" .debug)
        else (successResult, ctx.emitOutput "  Result: false (no ELSE branch, skipping)" .debug)

/-! ## ScriptExecutor -/

/-- `ScriptExecutor.executeStep` over the modelled handler map, with the
recursive list execution passed as a callback (no modelled handler throws,
so the catch branch of the source is unreachable here). -/
def executeStepWith (eng : RegexEngine)
    (recurse : List ScriptStep → ScriptContext → CommandResult × ScriptContext)
    (step : ScriptStep) (ctx : ScriptContext) : CommandResult × ScriptContext :=
  match step.type with
  | .print => PrintCommand.execute step ctx
  | .exit => ExitCommand.execute step ctx
  | .extract => ExtractCommand.execute eng step ctx
  | .ifStep => IfCommand.execute eng recurse step ctx

/-- `ScriptExecutor.executeSteps`, with fuel bounding the nesting depth
(each recursive call, both into a nested block and along the list, spends
one unit; the source recursion is bounded by the finite step tree, so any
fuel above the tree size computes its value). -/
def executeStepsGo (eng : RegexEngine) :
    Nat → Bool → List ScriptStep → ScriptContext → CommandResult × ScriptContext
  | 0, _, _, ctx => (successResult, ctx)
  | fuel + 1, cancelled, steps, ctx =>
    match steps with
    | [] => (successResult, ctx)
    | s :: rest =>
      if cancelled then
        ({ success := false, controlFlow := .exit, exitMessage := some "Script cancelled" }, ctx)
      else
        let (result, ctx') := executeStepWith eng (executeStepsGo eng fuel cancelled) s ctx
        if result.controlFlow != .normal then (result, ctx')
        else if !result.success then (result, ctx')
        else executeStepsGo eng fuel cancelled rest ctx'

/-! ## Fixtures and a spec-side predicate used by the theorems -/

/-- A trivial regex oracle: no pattern ever matches (no theorem below
evaluates an expression containing the `matches` operator). -/
def noRegex : String → String → Bool := fun _ _ => false

/-- A regex engine in which every pattern is valid and nothing matches. -/
def trivialEngine : RegexEngine := ⟨noRegex, fun _ => none, fun _ _ => []⟩

/-- The regex engine for the spec's extract example: the pattern `a=(\d)`
applied to `a=1\nb=2\na=3` yields two matches capturing `1` and `3`
(matches in order of appearance, as `regex.exec` with `gm` produces). -/
def extractExampleEngine : RegexEngine :=
  ⟨noRegex, fun _ => none,
    fun p s =>
      if p == "a=(\\d)" && s == "a=1\nb=2\na=3" then
        [⟨"a=1", [some "1"]⟩, ⟨"a=3", [some "3"]⟩]
      else []⟩

/-- An empty script context. -/
def emptyCtx : ScriptContext := ⟨[], [], "", false⟩

/-- Context binding `x` to the literal text `a and b`. -/
def quotedAndCtx : ScriptContext := ⟨[("x", .vStr "a and b")], [], "", false⟩

/-- Context binding `x` to a different text. -/
def quotedAndCtx2 : ScriptContext := ⟨[("x", .vStr "other")], [], "", false⟩

/-- Context holding the spec's extract example source. -/
def extractExampleCtx : ScriptContext := ⟨[("src", .vStr "a=1\nb=2\na=3")], [], "", false⟩

/-- An extract step whose options lack a pattern, declared
`on_error: continue`. -/
def badExtractStep : ScriptStep :=
  .mk .extract none none (some ⟨"x", "", .str "y", none⟩) (some "continue") [] []

/-- A print step emitting `MARKER`. -/
def printMarkerStep : ScriptStep := .mk .print (some "MARKER") none none none [] []

/-- An exit step with a non-failure message. -/
def exitDoneStep : ScriptStep := .mk .exit (some "done") none none none [] []

/-- Extract step for the spec example with `match: first` (the default). -/
def extractFirstStep : ScriptStep :=
  .mk .extract none none (some ⟨"src", "a=(\\d)", .str "v", none⟩) none [] []

/-- Extract step for the spec example with `match: all`. -/
def extractAllStep : ScriptStep :=
  .mk .extract none none (some ⟨"src", "a=(\\d)", .str "v", some "all"⟩) none [] []

/-- The claim's reading of `isLikelyPrompt` (C5), for comparison with the
source: the conditions are applied to the *trimmed* line. -/
def claimTrimmedLikelyPrompt (line : List Char) : Bool :=
  let t := jsTrim line
  decide (1 ≤ t.length) && decide (t.length ≤ 50) &&
    (match t.getLast? with
     | some c => PROMPT_TERMINATORS.contains c
     | none => false) &&
    !containsSeq ['\t'] t && !containsSeq [' ', ' '] t

/-! ## Helper lemmas -/

theorem mapGet_mapSet_self (m : List (String × JSValue)) (k : String) (v : JSValue) :
    mapGet (mapSet m k v) k = some v := by
  induction m with
  | nil => simp [mapSet, mapGet]
  | cons h t ih =>
    obtain ⟨k', v'⟩ := h
    by_cases hk : k' == k
    · simp [mapSet, hk, mapGet]
    · simp only [mapSet, hk, if_neg, Bool.false_eq_true, not_false_iff, mapGet, ite_false]
      exact ih

theorem mapGet_mapSet_ne (m : List (String × JSValue)) (k k' : String) (v : JSValue)
    (h : k' ≠ k) : mapGet (mapSet m k v) k' = mapGet m k' := by
  induction m with
  | nil => simp [mapSet, mapGet, h, Ne.symm h]
  | cons p t ih =>
    obtain ⟨k₀, v₀⟩ := p
    by_cases hk : k₀ == k
    · have hk' : k₀ = k := by simpa using hk
      subst hk'
      simp [mapSet, mapGet, h, Ne.symm h]
    · simp only [mapSet, hk, Bool.false_eq_true, if_false, mapGet]
      by_cases hk2 : k₀ == k'
      · simp [hk2]
      · simp [hk2, ih]

theorem mapGet_mapSet_isSome (m : List (String × JSValue)) (k k' : String) (v : JSValue)
    (h : (mapGet m k').isSome) : (mapGet (mapSet m k v) k').isSome := by
  by_cases hk : k' = k
  · subst hk
    simp [mapGet_mapSet_self]
  · rwa [mapGet_mapSet_ne m k k' v hk]

theorem emitOutput_vars (ctx : ScriptContext) (m : String) (t : OutputType) :
    (ctx.emitOutput m t).vars = ctx.vars := by
  unfold ScriptContext.emitOutput
  split <;> rfl

theorem emitOutput_getVariable (ctx : ScriptContext) (m : String) (t : OutputType)
    (n : String) : (ctx.emitOutput m t).getVariable n = ctx.getVariable n := by
  unfold ScriptContext.getVariable
  rw [emitOutput_vars]

theorem setVariable_getVariable_eqcase (ctx : ScriptContext) (n n' : String) (v : JSValue)
    (h : toLowerStr n = toLowerStr n') :
    (ctx.setVariable n v).getVariable n' = some v := by
  unfold ScriptContext.setVariable ScriptContext.getVariable
  simp only [← h]
  exact mapGet_mapSet_self _ _ _

theorem setVariable_getVariable_ne (ctx : ScriptContext) (n n' : String) (v : JSValue)
    (h : toLowerStr n ≠ toLowerStr n') :
    (ctx.setVariable n v).getVariable n' = ctx.getVariable n' := by
  unfold ScriptContext.setVariable ScriptContext.getVariable
  exact mapGet_mapSet_ne _ _ _ _ (Ne.symm h)

theorem setVariable_hasVariable_mono (ctx : ScriptContext) (m n : String) (v : JSValue)
    (h : ctx.hasVariable n = true) : (ctx.setVariable m v).hasVariable n = true := by
  unfold ScriptContext.hasVariable ScriptContext.getVariable ScriptContext.setVariable at *
  simpa using mapGet_mapSet_isSome _ _ _ _ (by simpa using h)

theorem intercalate_singleton (c : Char) (x : List Char) :
    joinWithChar c [x] = x := by
  simp [joinWithChar, List.intercalate]

/-! ## C1: command-result framing -/

/-- C1: for the raw session buffer `somecommand\r\noutput line\r\nhost#`
with the compiled prompt regex of the prompt literal `host#`, the clean
result built by `SshExecutionService.createResult` (normalize, drop the
echo line, drop the trailing prompt line, strip pager artifacts) is exactly
`output line`. -/
theorem createResult_frames_echo_and_prompt :
    createResultOutput "somecommand\r\noutput line\r\nhost#".data
      (some (buildPromptRegex "host#".data)) = "output line".data := by
  decide

/-! ## C6: prompt regex mode tolerance -/

/-- C6: the regex built by `buildPromptRegex("router#")` matches
`router#` and `router(config)#` but not `router2#`. -/
theorem buildPromptRegex_mode_tolerance :
    promptTest (buildPromptRegex "router#".data) "router#".data = true ∧
    promptTest (buildPromptRegex "router#".data) "router(config)#".data = true ∧
    promptTest (buildPromptRegex "router#".data) "router2#".data = false := by
  decide

/-! ## C8: normalization on control-free input -/

theorem writeChar_at_end (line : List Char) (c : Char) :
    writeChar line line.length c = line ++ [c] := by
  simp [writeChar]

theorem normProcessChar_printable (st : NormSt) (c : Char) (hc : ' ' ≤ c) :
    normProcessChar st c =
      ({ st with line := writeChar st.line st.pos c, pos := st.pos + 1 }, false) := by
  have h1 : (c == '\r') = false := by
    simp only [beq_eq_false_iff_ne]; rintro rfl; exact absurd hc (by decide)
  have h2 : (c == '\n') = false := by
    simp only [beq_eq_false_iff_ne]; rintro rfl; exact absurd hc (by decide)
  have h3 : (c == '\t') = false := by
    simp only [beq_eq_false_iff_ne]; rintro rfl; exact absurd hc (by decide)
  have h4 : (c == Char.ofNat 8) = false := by
    simp only [beq_eq_false_iff_ne]; rintro rfl; exact absurd hc (by decide)
  have h5 : (c == Char.ofNat 7) = false := by
    simp only [beq_eq_false_iff_ne]; rintro rfl; exact absurd hc (by decide)
  have h6 : (c == Char.ofNat 27) = false := by
    simp only [beq_eq_false_iff_ne]; rintro rfl; exact absurd hc (by decide)
  simp [normProcessChar, h1, h2, h3, h4, h5, h6, hc]

theorem normalizeGo_printable (s : List Char) : ∀ res line,
    (∀ c ∈ s, ' ' ≤ c) →
    normalizeGo .normal ⟨res, line, line.length⟩ s =
      ⟨res, line ++ s, line.length + s.length⟩ := by
  induction s with
  | nil => intro res line _; simp [normalizeGo]
  | cons c t ih =>
    intro res line h
    have hc : ' ' ≤ c := h c (by simp)
    rw [normalizeGo, normProcessChar_printable _ _ hc]
    simp only [writeChar_at_end]
    have hrec := ih res (line ++ [c]) (fun d hd => h d (by simp [hd]))
    simp only [List.length_append, List.length_singleton] at hrec
    rw [if_neg (by simp), hrec]
    simp [List.append_assoc, NormSt.mk.injEq]
    omega

/-- C8 (amended part): normalize is the identity on strings with no control
characters (every character at or above space). -/
theorem normalize_identity_on_control_free (s : List Char)
    (h : ∀ c ∈ s, ' ' ≤ c) : TerminalOutputProcessor.normalize s = s := by
  unfold TerminalOutputProcessor.normalize
  by_cases he : s.isEmpty
  · simp_all [List.isEmpty_iff]
  · have h0 := normalizeGo_printable s [] [] h
    simp only [List.nil_append, List.length_nil] at h0
    simp only [he, if_false, h0, Bool.false_eq_true]
    simpa using intercalate_singleton '\n' s

/-- C8 witness: the control-free string `abc` is returned unchanged. -/
theorem normalize_identity_on_control_free_witness :
    TerminalOutputProcessor.normalize "abc".data = "abc".data :=
  normalize_identity_on_control_free "abc".data (by decide)

/-- C8 counterexample: normalize is not idempotent on arbitrary input —
`normalize "\n\n" = "\n"` but `normalize "\n" = ""`, refuting the claim's
parenthetical `normalize (normalize s) = normalize s` for every `s`. -/
theorem normalize_not_idempotent_counterexample :
    TerminalOutputProcessor.normalize (TerminalOutputProcessor.normalize "\n\n".data) ≠
      TerminalOutputProcessor.normalize "\n\n".data := by
  decide

/-! ## C5: isLikelyPrompt -/

/-- C5 counterexample: for the line `"  host#"` the trimmed line (`host#`)
satisfies all of the claim's conditions, yet `isLikelyPrompt` returns
false — the source applies its conditions to the line as given, without
trimming (the double space in the untrimmed line fails the check). -/
theorem isLikelyPrompt_trim_counterexample :
    claimTrimmedLikelyPrompt "  host#".data = true ∧
      isLikelyPrompt "  host#".data = false := by
  decide

/-- C5 (amended): `isLikelyPrompt(line)` returns true iff the line as given
(untrimmed) is 1 to 50 characters long, ends in one of `#`, `>`, `$`, `%`,
and contains neither a tab nor two consecutive spaces. -/
theorem isLikelyPrompt_untrimmed_characterization (line : List Char) :
    isLikelyPrompt line = true ↔
      (1 ≤ line.length ∧ line.length ≤ 50 ∧
        (∃ c, line.getLast? = some c ∧ c ∈ PROMPT_TERMINATORS) ∧
        containsSeq ['\t'] line = false ∧ containsSeq [' ', ' '] line = false) := by
  unfold isLikelyPrompt
  rcases hL : line.getLast? with _ | c
  · have hnil : line = [] := by
      cases line with
      | nil => rfl
      | cons a t => simp [List.getLast?_concat] at hL
    subst hnil
    simp
  · have hne : line ≠ [] := by rintro rfl; simp at hL
    have h1 : line.isEmpty = false := by simpa [List.isEmpty_iff] using hne
    have hlen : 1 ≤ line.length := by
      cases line with
      | nil => exact absurd rfl hne
      | cons a t => simp
    have hlast : ∀ d, line.getLast? = some d → d = c := by
      intro d hd
      rw [hL] at hd
      exact (Option.some_inj.mp hd).symm
    constructor
    · intro h
      by_cases h100 : line.length > 100
      · simp [h1, h100] at h
      · simp [h1, h100] at h
        obtain ⟨hterm', ⟨htab', hsp'⟩, h50'⟩ := h
        exact ⟨hlen, h50', ⟨c, rfl, hterm'⟩, htab', hsp'⟩
    · rintro ⟨_, h50, ⟨d, hd, hmem⟩, htab, hsp⟩
      obtain rfl : c = d := Option.some_inj.mp hd
      have hcontains : PROMPT_TERMINATORS.contains c = true := by simpa using hmem
      simp [h1, htab, hsp, hcontains, show ¬ line.length > 100 by omega,
        show ¬ line.length > 50 by omega]
      exact hmem

/-! ## C7: operator scan respects quoting -/

theorem findLogOpAux_quote_false (op : List Char) (limit : Nat) :
    ∀ (rest : List Char) (i : Nat) (prev : Option Char) (inQ : Bool) (qc : Char) (j : Nat),
      findLogOpAux op limit rest i prev inQ qc = some j →
      ∃ k, j = i + k ∧ (quoteFold prev inQ qc (rest.take (k + 1))).1 = false := by
  intro rest
  induction rest with
  | nil => intro i prev inQ qc j h; simp [findLogOpAux] at h
  | cons c rs ih =>
    intro i prev inQ qc j h
    rw [findLogOpAux] at h
    by_cases hlim : i < limit
    · rw [if_pos hlim] at h
      rcases hq : quoteStep prev inQ qc c with ⟨inQ', qc'⟩
      rw [hq] at h
      simp only at h
      by_cases hmatch : (!inQ' && (toLowerL op).isPrefixOf (toLowerL (c :: rs))) = true
      · rw [if_pos hmatch] at h
        obtain rfl : i = j := by simpa using h
        have hin : inQ' = false := by
          have hx := ((Bool.and_eq_true _ _).mp hmatch).1
          simpa using hx
        refine ⟨0, by omega, ?_⟩
        simp [List.take, quoteFold, hq, hin]
      · rw [if_neg hmatch] at h
        obtain ⟨k', hk', hquote⟩ := ih (i + 1) (some c) inQ' qc' j h
        refine ⟨k' + 1, by omega, ?_⟩
        simp only [List.take, quoteFold, hq]
        exact hquote
    · rw [if_neg hlim] at h
      exact absurd h (by simp)

/-- C7: the evaluator's operator scan never matches inside a quoted
literal — whenever `findLogicalOperator` returns an index, the quote state
at that index is "outside quotes" — and on the concrete expression
`x == "a and b"` the quoted ` and ` is not treated as the logical operator:
the expression evaluates as a comparison of `x` against the literal
`a and b`. -/
theorem findLogicalOperator_skips_quoted :
    (∀ (s op : List Char) (j : Nat),
        findLogicalOperator s op = some j → inQuoteAt s j = false) ∧
    ExpressionEvaluator.evaluate noRegex quotedAndCtx "x == \"a and b\"" = true ∧
    ExpressionEvaluator.evaluate noRegex quotedAndCtx2 "x == \"a and b\"" = false ∧
    findLogicalOperator "x == \"a and b\"".data " and ".data = none := by
  refine ⟨?_, by decide, by decide, by decide⟩
  intro s op j h
  obtain ⟨k, hk, hq⟩ := findLogOpAux_quote_false op (s.length - op.length) s 0 none false ' ' j h
  unfold inQuoteAt
  rw [show j = k from by omega]
  exact hq

/-- C7 witness: at the unquoted expression `a and b` the scan returns index
1, and position 1 is indeed outside quotes. -/
theorem findLogicalOperator_skips_quoted_witness :
    findLogicalOperator "a and b".data " and ".data = some 1 ∧
      inQuoteAt "a and b".data 1 = false :=
  ⟨by decide, findLogicalOperator_skips_quoted.1 "a and b".data " and ".data 1 (by decide)⟩

/-! ## C2: `and` splits before `or` -/

theorem dropWhile_length_le (p : Char → Bool) (l : List Char) :
    (l.dropWhile p).length ≤ l.length := by
  induction l with
  | nil => simp
  | cons a t ih =>
    by_cases h : p a
    · rw [List.dropWhile_cons_of_pos h]
      exact le_trans ih (by simp)
    · rw [List.dropWhile_cons_of_neg h]

theorem jsTrim_length_le (s : List Char) : (jsTrim s).length ≤ s.length := by
  unfold jsTrim
  calc ((s.dropWhile jsIsWs).reverse.dropWhile jsIsWs).reverse.length
      = ((s.dropWhile jsIsWs).reverse.dropWhile jsIsWs).length := by
        exact List.length_reverse _
    _ ≤ (s.dropWhile jsIsWs).reverse.length := dropWhile_length_le _ _
    _ = (s.dropWhile jsIsWs).length := List.length_reverse _
    _ ≤ s.length := dropWhile_length_le _ _

theorem findLogOpAux_lt_limit (op : List Char) (limit : Nat) :
    ∀ (rest : List Char) (i : Nat) (prev : Option Char) (inQ : Bool) (qc : Char) (j : Nat),
      findLogOpAux op limit rest i prev inQ qc = some j → i ≤ j ∧ j < limit := by
  intro rest
  induction rest with
  | nil => intro i prev inQ qc j h; simp [findLogOpAux] at h
  | cons c rs ih =>
    intro i prev inQ qc j h
    rw [findLogOpAux] at h
    by_cases hlim : i < limit
    · rw [if_pos hlim] at h
      rcases hq : quoteStep prev inQ qc c with ⟨inQ', qc'⟩
      rw [hq] at h
      simp only at h
      by_cases hmatch : (!inQ' && (toLowerL op).isPrefixOf (toLowerL (c :: rs))) = true
      · rw [if_pos hmatch] at h
        obtain rfl : i = j := by simpa using h
        exact ⟨le_refl _, hlim⟩
      · rw [if_neg hmatch] at h
        obtain ⟨h1, h2⟩ := ih (i + 1) (some c) inQ' qc' j h
        exact ⟨by omega, h2⟩
    · rw [if_neg hlim] at h
      exact absurd h (by simp)

theorem opIdx_bounds (s op : List Char) (i : Nat) (h : opIdx s op = some i) :
    0 < i ∧ i + op.length < s.length := by
  unfold opIdx at h
  rcases hf : findLogicalOperator s op with _ | j
  · rw [hf] at h; exact absurd h (by simp)
  · rw [hf] at h
    simp only [] at h
    by_cases hj : 0 < j
    · rw [if_pos hj] at h
      have hji : j = i := by simpa using h
      have hb := findLogOpAux_lt_limit op (s.length - op.length) s 0 none false ' ' j hf
      omega
    · rw [if_neg hj] at h
      exact absurd h (by simp)

theorem jsSubstring_zero_take (s : List Char) (i : Nat) (h : i ≤ s.length) :
    jsSubstring s 0 i = s.take i := by
  unfold jsSubstring
  simp [Nat.min_eq_left h]

theorem length_jsSubstring_zero (s : List Char) (i : Nat) (h : i ≤ s.length) :
    (jsSubstring s 0 i).length = i := by
  rw [jsSubstring_zero_take s i h]
  simp [Nat.min_eq_left h]

theorem length_jsSubstringFrom (s : List Char) (i : Nat) :
    (jsSubstringFrom s i).length = s.length - i := by
  simp [jsSubstringFrom]

theorem paren_expr_length (s : List Char) (h1 : s.head? == some '(')
    (h2 : s.getLast? == some ')') : 2 ≤ s.length := by
  cases s with
  | nil => simp at h1
  | cons a t =>
    cases t with
    | nil =>
      simp only [List.head?, Option.some.injEq, beq_iff_eq] at h1
      subst h1
      exact absurd h2 (by decide)
    | cons b u => simp

theorem length_jsSubstring_one (s : List Char) (h : 2 ≤ s.length) :
    (jsSubstring s 1 (s.length - 1)).length = s.length - 2 := by
  simp only [jsSubstring, List.length_drop, List.length_take]
  omega

theorem evalGo_fuel_congr (rx : String → String → Bool) (ctx : ScriptContext) :
    ∀ (f1 f2 : Nat) (s : List Char), s.length < f1 → s.length < f2 →
      evalGo rx ctx f1 s = evalGo rx ctx f2 s := by
  intro f1
  induction f1 with
  | zero => intro f2 s h1 _; omega
  | succ f1 ih =>
    intro f2 s h1 h2
    cases f2 with
    | zero => omega
    | succ f2 =>
      rw [evalGo, evalGo]
      by_cases he : (jsTrim s).isEmpty = true
      · rw [if_pos he, if_pos he]
      · rw [if_neg he, if_neg he]
        have hts := jsTrim_length_le s
        simp only []
        cases hand : opIdx (jsTrim s) " and ".data with
        | some i =>
          simp only [hand]
          obtain ⟨hi0, hib⟩ := opIdx_bounds _ _ _ hand
          simp only [List.length_cons, List.length_nil] at hib
          have hleft : (jsSubstring (jsTrim s) 0 i).length = i :=
            length_jsSubstring_zero _ _ (by omega)
          have hright := length_jsSubstringFrom (jsTrim s) (i + 5)
          rw [ih f2 _ (by omega) (by omega), ih f2 _ (by omega) (by omega)]
        | none =>
          simp only [hand]
          cases hor : opIdx (jsTrim s) " or ".data with
          | some i =>
            simp only [hor]
            obtain ⟨hi0, hib⟩ := opIdx_bounds _ _ _ hor
            simp only [List.length_cons, List.length_nil] at hib
            have hleft : (jsSubstring (jsTrim s) 0 i).length = i :=
              length_jsSubstring_zero _ _ (by omega)
            have hright := length_jsSubstringFrom (jsTrim s) (i + 4)
            rw [ih f2 _ (by omega) (by omega), ih f2 _ (by omega) (by omega)]
          | none =>
            simp only [hor]
            by_cases hnot : "not ".data.isPrefixOf (toLowerL (jsTrim s)) = true
            · rw [if_pos hnot, if_pos hnot]
              have hpre : "not ".data <+: toLowerL (jsTrim s) := by
                rwa [← List.isPrefixOf_iff_prefix]
              have hlen4 : 4 ≤ (jsTrim s).length := by
                have := hpre.length_le
                simpa [toLowerL] using this
              have hd := length_jsSubstringFrom (jsTrim s) 4
              rw [ih f2 _ (by omega) (by omega)]
            · rw [if_neg hnot, if_neg hnot]
              by_cases hp : ((jsTrim s).head? == some '(' &&
                  (jsTrim s).getLast? == some ')') = true
              · rw [if_pos hp, if_pos hp]
                obtain ⟨hph, hpl⟩ := Bool.and_eq_true _ _ |>.mp hp
                have h2le : 2 ≤ (jsTrim s).length := paren_expr_length _ hph hpl
                have hinner := length_jsSubstring_one (jsTrim s) h2le
                rw [ih f2 _ (by omega) (by omega)]
              · rw [if_neg hp, if_neg hp]

/-- C2 counterexample: for `A or B and C` with A true, B false, C false
(`A = "1 == 1"`, `B = "1 == 2"`, `C = "1 == 3"`), the evaluator returns
false, while the claim's reading `evaluate(A) || (evaluate(B) &&
evaluate(C))` is true — `or` does not bind less tightly than `and` in this
code. -/
theorem evaluate_or_precedence_counterexample :
    ExpressionEvaluator.evaluate noRegex emptyCtx "1 == 1 or 1 == 2 and 1 == 3" = false ∧
    (ExpressionEvaluator.evaluate noRegex emptyCtx "1 == 1" ||
      (ExpressionEvaluator.evaluate noRegex emptyCtx "1 == 2" &&
       ExpressionEvaluator.evaluate noRegex emptyCtx "1 == 3")) = true := by
  decide

/-- C2 (amended): logical `and` binds less tightly than `or`: the evaluator
splits at the first ` and ` token outside quotes — even when an ` or `
occurs earlier — evaluating `left and-operand` ∧ `right and-operand`; in
particular `"A or B and C"` evaluates as `(A or B) and C`, so with A true,
B false, C false the whole expression is false. -/
theorem evaluate_and_binds_looser_than_or :
    (∀ (rx : String → String → Bool) (ctx : ScriptContext) (e : String) (i : Nat),
        opIdx (jsTrim e.data) " and ".data = some i →
        ExpressionEvaluator.evaluate rx ctx e =
          (ExpressionEvaluator.evaluate rx ctx
              (String.mk (jsSubstring (jsTrim e.data) 0 i)) &&
            ExpressionEvaluator.evaluate rx ctx
              (String.mk (jsSubstringFrom (jsTrim e.data) (i + 5))))) ∧
    ExpressionEvaluator.evaluate noRegex emptyCtx "1 == 1 or 1 == 2 and 1 == 3" = false := by
  constructor
  · intro rx ctx e i h
    obtain ⟨hi0, hib⟩ := opIdx_bounds _ _ _ h
    have h5 : (" and ".data).length = 5 := by decide
    rw [h5] at hib
    have hts := jsTrim_length_le e.data
    have hne : (jsTrim e.data).isEmpty = false := by
      rcases hn : jsTrim e.data with _ | ⟨a, t⟩
      · rw [hn] at hib
        simp at hib
      · simp
    unfold ExpressionEvaluator.evaluate
    rw [evalGo]
    rw [if_neg (by simp [hne])]
    simp only [h]
    have hleft : (jsSubstring (jsTrim e.data) 0 i).length = i :=
      length_jsSubstring_zero _ _ (by omega)
    have hright := length_jsSubstringFrom (jsTrim e.data) (i + 5)
    have hlb1 : (jsSubstring (jsTrim e.data) 0 i).length < e.data.length := by
      rw [hleft]; omega
    have hlb2 : (jsSubstringFrom (jsTrim e.data) (i + 5)).length < e.data.length := by
      rw [hright]; omega
    rw [evalGo_fuel_congr rx ctx e.data.length
        ((jsSubstring (jsTrim e.data) 0 i).length + 1) _ hlb1 (by omega),
      evalGo_fuel_congr rx ctx e.data.length
        ((jsSubstringFrom (jsTrim e.data) (i + 5)).length + 1) _ hlb2 (by omega)]
  · decide

/-- C2 witness: on the concrete expression the split index is 16 and the
split equation holds. -/
theorem evaluate_and_binds_looser_than_or_witness :
    opIdx (jsTrim "1 == 1 or 1 == 2 and 1 == 3".data) " and ".data = some 16 ∧
    ExpressionEvaluator.evaluate noRegex emptyCtx "1 == 1 or 1 == 2 and 1 == 3" =
      (ExpressionEvaluator.evaluate noRegex emptyCtx
          (String.mk (jsSubstring (jsTrim "1 == 1 or 1 == 2 and 1 == 3".data) 0 16)) &&
        ExpressionEvaluator.evaluate noRegex emptyCtx
          (String.mk (jsSubstringFrom (jsTrim "1 == 1 or 1 == 2 and 1 == 3".data) (16 + 5)))) :=
  ⟨by decide,
    evaluate_and_binds_looser_than_or.1 noRegex emptyCtx
      "1 == 1 or 1 == 2 and 1 == 3" 16 (by decide)⟩

/-! ## C3: sequential halting in executeSteps -/

/-- C3 counterexample: an extract step with invalid options (missing
pattern) that declares `on_error: continue` still halts the remaining
steps — `executeSteps` returns the failure unchanged and the following
print step never runs (no `MARKER` in the output); the same print step
alone does run. -/
theorem executeSteps_onerror_continue_counterexample :
    executeStepsGo trivialEngine 10 false [badExtractStep, printMarkerStep] quotedAndCtx =
      (errorResult "Extract requires \"pattern\"", quotedAndCtx) ∧
    badExtractStep.onError = some "continue" ∧
    (executeStepsGo trivialEngine 10 false [printMarkerStep] quotedAndCtx).2.output =
      ["MARKER"] := by
  decide

/-- C3 (amended): execution of a step list is sequential; the first
`CommandResult` carrying a non-`normal` control-flow tag, or carrying
failure — regardless of the step's `on_error` declaration, which the list
loop never consults — immediately halts the remaining steps and is
returned unchanged to the caller; a successful normal result continues with
the remaining steps (`on_error: continue` avoids the halt only when the
failure pathway that produced the result consulted it, i.e. the executor's
exception handler or a handler such as send, by converting the result to
success before it reaches the loop). -/
theorem executeSteps_halts_on_failure_or_signal (eng : RegexEngine) (fuel : Nat)
    (s : ScriptStep) (rest : List ScriptStep) (ctx : ScriptContext) :
    ((executeStepWith eng (executeStepsGo eng fuel false) s ctx).1.controlFlow ≠ .normal →
      executeStepsGo eng (fuel + 1) false (s :: rest) ctx =
        executeStepWith eng (executeStepsGo eng fuel false) s ctx) ∧
    ((executeStepWith eng (executeStepsGo eng fuel false) s ctx).1.success = false →
      executeStepsGo eng (fuel + 1) false (s :: rest) ctx =
        executeStepWith eng (executeStepsGo eng fuel false) s ctx) ∧
    ((executeStepWith eng (executeStepsGo eng fuel false) s ctx).1.controlFlow = .normal →
      (executeStepWith eng (executeStepsGo eng fuel false) s ctx).1.success = true →
      executeStepsGo eng (fuel + 1) false (s :: rest) ctx =
        executeStepsGo eng fuel false rest
          (executeStepWith eng (executeStepsGo eng fuel false) s ctx).2) := by
  rcases hE : executeStepWith eng (executeStepsGo eng fuel false) s ctx with ⟨r, c⟩
  refine ⟨?_, ?_, ?_⟩
  · intro hcf
    dsimp only at hcf
    rw [executeStepsGo]
    simp only [if_neg (by simp : ¬ (false = true)), hE]
    rw [if_pos (by simpa using hcf)]
  · intro hsc
    dsimp only at hsc
    rw [executeStepsGo]
    simp only [if_neg (by simp : ¬ (false = true)), hE]
    by_cases hcf : r.controlFlow != ControlFlow.normal
    · rw [if_pos hcf]
    · rw [if_neg hcf, if_pos (by simp [hsc])]
  · intro hcf hsc
    dsimp only at hcf hsc
    rw [executeStepsGo]
    simp only [if_neg (by simp : ¬ (false = true)), hE]
    rw [if_neg (by simp [hcf]), if_neg (by simp [hsc])]

/-- C3 witness: an exit result halts (non-normal tag), the invalid extract
halts on failure, and a successful print continues with the rest. -/
theorem executeSteps_halts_on_failure_or_signal_witness :
    executeStepsGo trivialEngine 6 false [exitDoneStep, printMarkerStep] quotedAndCtx =
      executeStepWith trivialEngine (executeStepsGo trivialEngine 5 false) exitDoneStep
        quotedAndCtx ∧
    executeStepsGo trivialEngine 6 false [badExtractStep, printMarkerStep] quotedAndCtx =
      executeStepWith trivialEngine (executeStepsGo trivialEngine 5 false) badExtractStep
        quotedAndCtx ∧
    executeStepsGo trivialEngine 6 false [printMarkerStep, exitDoneStep] quotedAndCtx =
      executeStepsGo trivialEngine 5 false [exitDoneStep]
        (executeStepWith trivialEngine (executeStepsGo trivialEngine 5 false) printMarkerStep
          quotedAndCtx).2 :=
  ⟨(executeSteps_halts_on_failure_or_signal trivialEngine 5 exitDoneStep [printMarkerStep]
      quotedAndCtx).1 (by decide),
    (executeSteps_halts_on_failure_or_signal trivialEngine 5 badExtractStep [printMarkerStep]
      quotedAndCtx).2.1 (by decide),
    (executeSteps_halts_on_failure_or_signal trivialEngine 5 printMarkerStep [exitDoneStep]
      quotedAndCtx).2.2 (by decide) (by decide)⟩

/-! ## C9/C10: case-insensitive, persistent variable namespace -/

theorem importVarsGo_isSome_mono (es : List (String × JSValue)) :
    ∀ (m : List (String × JSValue)) (k : String),
      (mapGet m k).isSome = true → (mapGet (importVarsGo m es) k).isSome = true := by
  induction es with
  | nil => intro m k h; simpa [importVarsGo] using h
  | cons e t ih =>
    intro m k h
    obtain ⟨ek, ev⟩ := e
    rw [importVarsGo]
    by_cases hm : (mapGet m (toLowerStr ek)).isSome = true
    · simp only [hm, if_true]
      exact ih m k h
    · simp only [hm, if_false, Bool.false_eq_true]
      exact ih _ k (mapGet_mapSet_isSome m (toLowerStr ek) k ev h)

theorem importVarsGo_get_preserved (es : List (String × JSValue)) :
    ∀ (m : List (String × JSValue)) (k : String),
      (mapGet m k).isSome = true → mapGet (importVarsGo m es) k = mapGet m k := by
  induction es with
  | nil => intro m k _; simp [importVarsGo]
  | cons e t ih =>
    intro m k h
    obtain ⟨ek, ev⟩ := e
    rw [importVarsGo]
    by_cases hm : (mapGet m (toLowerStr ek)).isSome = true
    · simp only [hm, if_true]
      exact ih m k h
    · simp only [hm, if_false, Bool.false_eq_true]
      have hne : k ≠ toLowerStr ek := by
        intro hkk
        rw [hkk] at h
        exact hm h
      rw [ih _ k (mapGet_mapSet_isSome m (toLowerStr ek) k ev h)]
      exact mapGet_mapSet_ne m (toLowerStr ek) k ev hne

theorem emitOutput_hasVariable (ctx : ScriptContext) (msg : String) (t : OutputType)
    (n : String) : (ctx.emitOutput msg t).hasVariable n = ctx.hasVariable n := by
  unfold ScriptContext.hasVariable
  rw [emitOutput_getVariable]

theorem recordCommandOutput_hasVariable_mono (ctx : ScriptContext) (out : String)
    (cap : Option String) (n : String) (h : ctx.hasVariable n = true) :
    (ctx.recordCommandOutput out cap).hasVariable n = true := by
  unfold ScriptContext.recordCommandOutput
  rcases cap with _ | c
  · simp only []
    unfold ScriptContext.hasVariable ScriptContext.getVariable at *
    exact mapGet_mapSet_isSome _ _ _ _ (by simpa using h)
  · simp only []
    by_cases hc : c == ""
    · simp only [hc, if_true]
      unfold ScriptContext.hasVariable ScriptContext.getVariable at *
      exact mapGet_mapSet_isSome _ _ _ _ (by simpa using h)
    · simp only [hc, if_false, Bool.false_eq_true]
      apply setVariable_hasVariable_mono
      unfold ScriptContext.hasVariable ScriptContext.getVariable at *
      exact mapGet_mapSet_isSome _ _ _ _ (by simpa using h)

theorem importScriptVars_hasVariable_mono (ctx : ScriptContext)
    (vs : List (String × JSValue)) (n : String) (h : ctx.hasVariable n = true) :
    (ctx.importScriptVars vs).hasVariable n = true := by
  unfold ScriptContext.importScriptVars ScriptContext.hasVariable
    ScriptContext.getVariable at *
  exact importVarsGo_isSome_mono vs ctx.vars (toLowerStr n) h

theorem foldl_setVariable_hasVariable_mono (names : List String) (v : JSValue) :
    ∀ (ctx : ScriptContext) (n : String), ctx.hasVariable n = true →
      (names.foldl (fun c x => c.setVariable x v) ctx).hasVariable n = true := by
  induction names with
  | nil => intro ctx n h; simpa using h
  | cons a t ih =>
    intro ctx n h
    exact ih (ctx.setVariable a v) n (setVariable_hasVariable_mono ctx a n v h)

theorem setEmptyResults_hasVariable_mono (into : StrOrList) (ctx : ScriptContext)
    (n : String) (h : ctx.hasVariable n = true) :
    (setEmptyResults into ctx).hasVariable n = true := by
  unfold setEmptyResults
  exact foldl_setVariable_hasVariable_mono _ _ ctx n h

theorem assignSingleLoop_hasVariable_mono (g : List (Option String)) :
    ∀ (pairs : List (Nat × String)) (ctx : ScriptContext) (n : String),
      ctx.hasVariable n = true → (assignSingleLoop g pairs ctx).hasVariable n = true := by
  intro pairs
  induction pairs with
  | nil => intro ctx n h; simpa [assignSingleLoop] using h
  | cons p t ih =>
    intro ctx n h
    obtain ⟨i, name⟩ := p
    rw [assignSingleLoop]
    apply ih
    rw [emitOutput_hasVariable]
    exact setVariable_hasVariable_mono ctx name n _ h

theorem assignAllLoop_hasVariable_mono (sel : List (List (Option String))) :
    ∀ (pairs : List (Nat × String)) (ctx : ScriptContext) (n : String),
      ctx.hasVariable n = true → (assignAllLoop sel pairs ctx).hasVariable n = true := by
  intro pairs
  induction pairs with
  | nil => intro ctx n h; simpa [assignAllLoop] using h
  | cons p t ih =>
    intro ctx n h
    obtain ⟨i, name⟩ := p
    rw [assignAllLoop]
    apply ih
    rw [emitOutput_hasVariable]
    exact setVariable_hasVariable_mono ctx name n _ h

theorem emitMatchPreviews_vars (ms : List (List (Option String))) (k : Nat) :
    ∀ (ctx : ScriptContext), (emitMatchPreviews ctx ms k).vars = ctx.vars := by
  unfold emitMatchPreviews
  generalize (ms.take k).enum = l
  induction l with
  | nil => intro ctx; rfl
  | cons p t ih =>
    intro ctx
    rw [List.foldl_cons, ih, emitOutput_vars]

theorem printExecute_vars (s : ScriptStep) (ctx : ScriptContext) :
    (PrintCommand.execute s ctx).2.vars = ctx.vars := by
  unfold PrintCommand.execute
  dsimp only
  split <;> simp [emitOutput_vars]

theorem exitExecute_vars (s : ScriptStep) (ctx : ScriptContext) :
    (ExitCommand.execute s ctx).2.vars = ctx.vars := by
  unfold ExitCommand.execute
  dsimp only
  simp [emitOutput_vars]

theorem emitMatchPreviews_hasVariable (ms : List (List (Option String))) (k : Nat)
    (ctx : ScriptContext) (n : String) :
    (emitMatchPreviews ctx ms k).hasVariable n = ctx.hasVariable n := by
  unfold ScriptContext.hasVariable ScriptContext.getVariable
  rw [emitMatchPreviews_vars]

theorem extractSelect_vars (matchOption : String)
    (allMatches : List (List (Option String))) (m0 : List (Option String))
    (ctx : ScriptContext) : (extractSelect matchOption allMatches m0 ctx).2.vars = ctx.vars := by
  unfold extractSelect
  split
  · exact emitOutput_vars _ _ _
  · split
    · exact emitOutput_vars _ _ _
    · split
      · exact emitOutput_vars _ _ _
      · split
        · split
          · exact emitOutput_vars _ _ _
          · exact emitOutput_vars _ _ _
        · exact emitOutput_vars _ _ _

theorem extractAssign_hasVariable_mono (matchOption : String)
    (selectedMatches : List (List (Option String))) (intoVars : List String)
    (ctx : ScriptContext) (n : String) (h : ctx.hasVariable n = true) :
    (extractAssign matchOption selectedMatches intoVars ctx).hasVariable n = true := by
  unfold extractAssign
  split
  · exact assignAllLoop_hasVariable_mono _ _ ctx n h
  · exact assignSingleLoop_hasVariable_mono _ _ ctx n h

theorem extractExecute_hasVariable_mono (eng : RegexEngine) (s : ScriptStep)
    (ctx : ScriptContext) (n : String) (h : ctx.hasVariable n = true) :
    (ExtractCommand.execute eng s ctx).2.hasVariable n = true := by
  unfold ExtractCommand.execute
  rcases s.extract with _ | ex
  · exact h
  · dsimp only
    split
    · exact h
    · split
      · exact h
      · split
        · exact h
        · split
          · apply setEmptyResults_hasVariable_mono
            simp only [emitOutput_hasVariable]
            exact h
          · split
            · simp only [emitOutput_hasVariable]
              exact h
            · split
              · apply setEmptyResults_hasVariable_mono
                simp only [emitOutput_hasVariable]
                exact h
              · dsimp only
                refine extractAssign_hasVariable_mono _ _ _ _ n ?_
                unfold ScriptContext.hasVariable ScriptContext.getVariable at h ⊢
                rw [extractSelect_vars]
                simp only [apply_ite ScriptContext.vars, emitOutput_vars,
                  emitMatchPreviews_vars, ite_self]
                exact h

theorem ifExecute_hasVariable_mono (eng : RegexEngine)
    (recurse : List ScriptStep → ScriptContext → CommandResult × ScriptContext)
    (hrec : ∀ (ss : List ScriptStep) (c : ScriptContext) (n : String),
      c.hasVariable n = true → (recurse ss c).2.hasVariable n = true)
    (s : ScriptStep) (ctx : ScriptContext) (n : String) (h : ctx.hasVariable n = true) :
    (IfCommand.execute eng recurse s ctx).2.hasVariable n = true := by
  unfold IfCommand.execute
  rcases s.condition with _ | cond
  · exact h
  · dsimp only
    split
    · exact h
    · split <;> (try split) <;> (try split) <;>
        first
        | (apply hrec
           simp only [ScriptContext.hasVariable, ScriptContext.getVariable,
             apply_ite ScriptContext.vars, emitOutput_vars, ite_self] at h ⊢
           exact h)
        | (simp only [ScriptContext.hasVariable, ScriptContext.getVariable,
             apply_ite ScriptContext.vars, emitOutput_vars, ite_self] at h ⊢
           exact h)

theorem executeStepWith_hasVariable_mono (eng : RegexEngine)
    (recurse : List ScriptStep → ScriptContext → CommandResult × ScriptContext)
    (hrec : ∀ (ss : List ScriptStep) (c : ScriptContext) (n : String),
      c.hasVariable n = true → (recurse ss c).2.hasVariable n = true)
    (s : ScriptStep) (ctx : ScriptContext) (n : String) (h : ctx.hasVariable n = true) :
    (executeStepWith eng recurse s ctx).2.hasVariable n = true := by
  unfold executeStepWith
  rcases s.type with _ | _ | _ | _
  · unfold ScriptContext.hasVariable ScriptContext.getVariable at h ⊢
    rw [printExecute_vars]
    exact h
  · unfold ScriptContext.hasVariable ScriptContext.getVariable at h ⊢
    rw [exitExecute_vars]
    exact h
  · exact extractExecute_hasVariable_mono eng s ctx n h
  · exact ifExecute_hasVariable_mono eng recurse hrec s ctx n h

theorem executeStepsGo_hasVariable_mono (eng : RegexEngine) :
    ∀ (fuel : Nat) (cancelled : Bool) (steps : List ScriptStep) (ctx : ScriptContext)
      (n : String), ctx.hasVariable n = true →
      ((executeStepsGo eng fuel cancelled steps ctx).2).hasVariable n = true := by
  intro fuel
  induction fuel with
  | zero => intro cancelled steps ctx n h; simpa [executeStepsGo] using h
  | succ fuel ih =>
    intro cancelled steps ctx n h
    rcases steps with _ | ⟨s, rest⟩
    · rw [executeStepsGo]
      exact h
    · rw [executeStepsGo]
      dsimp only
      by_cases hc : cancelled = true
      · rw [if_pos hc]
        exact h
      · rw [if_neg hc]
        rcases hE : executeStepWith eng (executeStepsGo eng fuel cancelled) s ctx with ⟨r, c⟩
        have hstep : c.hasVariable n = true := by
          have := executeStepWith_hasVariable_mono eng (executeStepsGo eng fuel cancelled)
            (fun ss cc nn hh => ih cancelled ss cc nn hh) s ctx n h
          rwa [hE] at this
        dsimp only
        split
        · exact hstep
        · split
          · exact hstep
          · exact ih cancelled rest c n hstep

/-- C9: the script context keeps one flat case-insensitive variable
namespace — after `setVariable(n, v)`, `getVariable`/`hasVariable` on any
name equal to `n` up to letter case return `v`/true; and no context
operation (`setVariable`, `emitOutput`, `recordCommandOutput`,
`importScriptVars`) nor any step execution through `executeSteps`
(including nested `then`/`else` blocks) removes a variable. -/
theorem context_variables_case_insensitive_persistent :
    (∀ (ctx : ScriptContext) (n n' : String) (v : JSValue),
        toLowerStr n = toLowerStr n' →
        (ctx.setVariable n v).getVariable n' = some v ∧
          (ctx.setVariable n v).hasVariable n' = true) ∧
    (∀ (ctx : ScriptContext) (m n : String) (v : JSValue),
        ctx.hasVariable n = true → (ctx.setVariable m v).hasVariable n = true) ∧
    (∀ (ctx : ScriptContext) (msg : String) (t : OutputType) (n : String),
        ctx.hasVariable n = true → (ctx.emitOutput msg t).hasVariable n = true) ∧
    (∀ (ctx : ScriptContext) (out : String) (cap : Option String) (n : String),
        ctx.hasVariable n = true → (ctx.recordCommandOutput out cap).hasVariable n = true) ∧
    (∀ (ctx : ScriptContext) (vs : List (String × JSValue)) (n : String),
        ctx.hasVariable n = true → (ctx.importScriptVars vs).hasVariable n = true) ∧
    (∀ (eng : RegexEngine) (fuel : Nat) (cancelled : Bool) (steps : List ScriptStep)
        (ctx : ScriptContext) (n : String), ctx.hasVariable n = true →
        ((executeStepsGo eng fuel cancelled steps ctx).2).hasVariable n = true) := by
  refine ⟨?_, ?_, ?_, ?_, ?_, ?_⟩
  · intro ctx n n' v h
    refine ⟨setVariable_getVariable_eqcase ctx n n' v h, ?_⟩
    unfold ScriptContext.hasVariable
    rw [setVariable_getVariable_eqcase ctx n n' v h]
    rfl
  · intro ctx m n v h
    exact setVariable_hasVariable_mono ctx m n v h
  · intro ctx msg t n h
    rw [emitOutput_hasVariable]
    exact h
  · intro ctx out cap n h
    exact recordCommandOutput_hasVariable_mono ctx out cap n h
  · intro ctx vs n h
    exact importScriptVars_hasVariable_mono ctx vs n h
  · intro eng fuel cancelled steps ctx n h
    exact executeStepsGo_hasVariable_mono eng fuel cancelled steps ctx n h

/-- C9 witness: setting `Foo` makes `FOO` visible, and the visibility
survives an emit, a record, an import and a two-step execution with a
nested `then` block. -/
theorem context_variables_case_insensitive_persistent_witness :
    (emptyCtx.setVariable "Foo" (.vStr "1")).getVariable "FOO" = some (.vStr "1") ∧
    (emptyCtx.setVariable "Foo" (.vStr "1")).hasVariable "FOO" = true ∧
    ((emptyCtx.setVariable "Foo" (.vStr "1")).emitOutput "x" .info).hasVariable "FOO" = true ∧
    ((emptyCtx.setVariable "Foo" (.vStr "1")).recordCommandOutput "o" (some "cap")).hasVariable
      "FOO" = true ∧
    ((emptyCtx.setVariable "Foo" (.vStr "1")).importScriptVars
      [("foo", .vStr "2")]).hasVariable "FOO" = true ∧
    ((executeStepsGo trivialEngine 10 false
        [.mk .ifStep none (some "1 == 1") none none [printMarkerStep] [], printMarkerStep]
        (emptyCtx.setVariable "Foo" (.vStr "1"))).2).hasVariable "FOO" = true := by
  have h := context_variables_case_insensitive_persistent
  have h1 := h.1 emptyCtx "Foo" "FOO" (.vStr "1") (by decide)
  refine ⟨h1.1, h1.2, ?_, ?_, ?_, ?_⟩
  · exact h.2.2.1 _ "x" .info "FOO" h1.2
  · exact h.2.2.2.1 _ "o" (some "cap") "FOO" h1.2
  · exact h.2.2.2.2.1 _ [("foo", .vStr "2")] "FOO" h1.2
  · exact h.2.2.2.2.2 trivialEngine 10 false _ _ "FOO" h1.2

/-- C10: importing a script's declared variable defaults never overwrites an
existing context variable — every key whose lower-cased name is already
present keeps its value, and any key whose lookup changed was not present
before the import. -/
theorem importScriptVars_preserves_existing :
    (∀ (ctx : ScriptContext) (vs : List (String × JSValue)) (k : String),
        ctx.hasVariable k = true →
        (ctx.importScriptVars vs).getVariable k = ctx.getVariable k) ∧
    (∀ (ctx : ScriptContext) (vs : List (String × JSValue)) (k : String),
        (ctx.importScriptVars vs).getVariable k ≠ ctx.getVariable k →
        ctx.hasVariable k = false) := by
  have hmain : ∀ (ctx : ScriptContext) (vs : List (String × JSValue)) (k : String),
      ctx.hasVariable k = true →
      (ctx.importScriptVars vs).getVariable k = ctx.getVariable k := by
    intro ctx vs k h
    unfold ScriptContext.importScriptVars ScriptContext.getVariable
      ScriptContext.hasVariable at *
    exact importVarsGo_get_preserved vs ctx.vars (toLowerStr k) h
  refine ⟨hmain, ?_⟩
  intro ctx vs k hne
  by_cases h : ctx.hasVariable k = true
  · exact absurd (hmain ctx vs k h) hne
  · simpa using h

/-- C10 witness: importing defaults for `A` (already present as `a`, e.g.
from a CSV column) and `b` (absent) leaves `a` unchanged while the changed
key `b` was indeed absent. -/
theorem importScriptVars_preserves_existing_witness :
    ((⟨[("a", .vStr "csv")], [], "", false⟩ : ScriptContext).importScriptVars
        [("A", .vStr "default"), ("b", .vStr "3")]).getVariable "a" =
      (⟨[("a", .vStr "csv")], [], "", false⟩ : ScriptContext).getVariable "a" ∧
    (⟨[("a", .vStr "csv")], [], "", false⟩ : ScriptContext).hasVariable "b" = false :=
  ⟨importScriptVars_preserves_existing.1 ⟨[("a", .vStr "csv")], [], "", false⟩
      [("A", .vStr "default"), ("b", .vStr "3")] "a" (by decide),
    importScriptVars_preserves_existing.2 ⟨[("a", .vStr "csv")], [], "", false⟩
      [("A", .vStr "default"), ("b", .vStr "3")] "b" (by decide)⟩

/-! ## C4: extract first/all/empty semantics -/

theorem emitOutput_getVariableString (ctx : ScriptContext) (m : String) (t : OutputType)
    (nm : String) : (ctx.emitOutput m t).getVariableString nm = ctx.getVariableString nm := by
  unfold ScriptContext.getVariableString
  rw [emitOutput_getVariable]

theorem foldl_setVariable_const_get (v : JSValue) :
    ∀ (names : List String) (ctx : ScriptContext) (n : String),
      (names.foldl (fun c x => c.setVariable x v) ctx).getVariable n =
        if (names.map toLowerStr).contains (toLowerStr n) then some v
        else ctx.getVariable n := by
  intro names
  induction names with
  | nil => intro ctx n; simp
  | cons a t ih =>
    intro ctx n
    rw [List.foldl_cons, ih]
    by_cases hat : (t.map toLowerStr).contains (toLowerStr n) = true
    · have hex : ∃ x ∈ t, toLowerStr x = toLowerStr n := by simpa using hat
      simp [hex]
    · have hnex : ¬ ∃ x ∈ t, toLowerStr x = toLowerStr n := by simpa using hat
      by_cases haa : toLowerStr a = toLowerStr n
      · have haa' : toLowerStr n = toLowerStr a := haa.symm
        simp [hnex, haa', setVariable_getVariable_eqcase ctx a n v haa]
      · have haa' : ¬ toLowerStr n = toLowerStr a := fun hh => haa hh.symm
        rw [setVariable_getVariable_ne ctx a n v haa]
        simp [hnex, haa']

theorem setEmptyResults_get (into : StrOrList) (ctx : ScriptContext) (nm : String)
    (hmem : nm ∈ (match into with | StrOrList.list vs => vs | StrOrList.str v => [v])) :
    (setEmptyResults into ctx).getVariable nm = some (.vStr "") := by
  unfold setEmptyResults
  rw [foldl_setVariable_const_get]
  have hex : ∃ x ∈ (match into with
      | StrOrList.list vs => vs
      | StrOrList.str v => [v]), toLowerStr x = toLowerStr nm := ⟨nm, hmem, rfl⟩
  simp [hex]

theorem assignSingleLoop_untouched (g : List (Option String)) :
    ∀ (pairs : List (Nat × String)) (ctx : ScriptContext) (n : String),
      (∀ p ∈ pairs, toLowerStr p.2 ≠ toLowerStr n) →
      (assignSingleLoop g pairs ctx).getVariable n = ctx.getVariable n := by
  intro pairs
  induction pairs with
  | nil => intro ctx n _; rfl
  | cons p t ih =>
    intro ctx n h
    obtain ⟨i, name⟩ := p
    rw [assignSingleLoop, ih _ _ (fun q hq => h q (by simp [hq]))]
    rw [emitOutput_getVariable]
    exact setVariable_getVariable_ne ctx name n _ (h (i, name) (by simp))

theorem assignSingleLoop_get (g : List (Option String)) :
    ∀ (pairs : List (Nat × String)) (ctx : ScriptContext),
      (pairs.map (fun p => toLowerStr p.2)).Nodup →
      ∀ p ∈ pairs, (assignSingleLoop g pairs ctx).getVariable p.2 =
        some (.vStr (groupVal g p.1)) := by
  intro pairs
  induction pairs with
  | nil => intro ctx _ p hp; simp at hp
  | cons q t ih =>
    intro ctx hnd p hp
    obtain ⟨i, name⟩ := q
    obtain ⟨hq1, hq2⟩ := List.nodup_cons.mp hnd
    rcases List.mem_cons.mp hp with hp1 | hp2
    · subst hp1
      dsimp only
      rw [assignSingleLoop]
      rw [assignSingleLoop_untouched g t _ _ ?_]
      · rw [emitOutput_getVariable]
        exact setVariable_getVariable_eqcase ctx _ _ _ rfl
      · intro r hr hcontra
        refine hq1 ?_
        dsimp only
        rw [← hcontra]
        exact List.mem_map_of_mem _ hr
    · rw [assignSingleLoop]
      exact ih _ hq2 p hp2

theorem assignAllLoop_untouched (sel : List (List (Option String))) :
    ∀ (pairs : List (Nat × String)) (ctx : ScriptContext) (n : String),
      (∀ p ∈ pairs, toLowerStr p.2 ≠ toLowerStr n) →
      (assignAllLoop sel pairs ctx).getVariable n = ctx.getVariable n := by
  intro pairs
  induction pairs with
  | nil => intro ctx n _; rfl
  | cons p t ih =>
    intro ctx n h
    obtain ⟨i, name⟩ := p
    rw [assignAllLoop, ih _ _ (fun q hq => h q (by simp [hq]))]
    rw [emitOutput_getVariable]
    exact setVariable_getVariable_ne ctx name n _ (h (i, name) (by simp))

theorem assignAllLoop_get (sel : List (List (Option String))) :
    ∀ (pairs : List (Nat × String)) (ctx : ScriptContext),
      (pairs.map (fun p => toLowerStr p.2)).Nodup →
      ∀ p ∈ pairs, (assignAllLoop sel pairs ctx).getVariable p.2 =
        some (.vList (sel.map (fun m => groupVal m p.1))) := by
  intro pairs
  induction pairs with
  | nil => intro ctx _ p hp; simp at hp
  | cons q t ih =>
    intro ctx hnd p hp
    obtain ⟨i, name⟩ := q
    obtain ⟨hq1, hq2⟩ := List.nodup_cons.mp hnd
    rcases List.mem_cons.mp hp with hp1 | hp2
    · subst hp1
      dsimp only
      rw [assignAllLoop]
      rw [assignAllLoop_untouched sel t _ _ ?_]
      · rw [emitOutput_getVariable]
        exact setVariable_getVariable_eqcase ctx _ _ _ rfl
      · intro r hr hcontra
        refine hq1 ?_
        dsimp only
        rw [← hcontra]
        exact List.mem_map_of_mem _ hr
    · rw [assignAllLoop]
      exact ih _ hq2 p hp2

theorem enum_map_toLower (l : List String) :
    (l.enum.map (fun p => toLowerStr p.2)) = l.map toLowerStr := by
  rw [show (fun p : Nat × String => toLowerStr p.2) = toLowerStr ∘ Prod.snd from rfl,
    ← List.map_map, List.enum_map_snd]

/-- C4: for every extract step with a valid pattern (modulo the `RegExp`
oracle `eng`): the result is success; with `match: first` (the default)
each destination variable receives the corresponding capture group of the
first match; with `match: all` each destination receives the array of that
group's value across every match in order; and an empty source or zero
matches assigns the empty string to every destination. -/
theorem extract_match_selection (eng : RegexEngine) (step : ScriptStep)
    (ctx : ScriptContext) (ex : ExtractOptions) (hx : step.extract = some ex)
    (h1 : ex.fromVar ≠ "") (h2 : ex.pattern ≠ "") (h3 : ex.into.falsy = false)
    (hv : eng.validGM ex.pattern = none) :
    (ExtractCommand.execute eng step ctx).1 = successResult ∧
    (ctx.getVariableString ex.fromVar = "" →
      ∀ nm ∈ (match ex.into with | StrOrList.list vs => vs | StrOrList.str v => [v]),
        (ExtractCommand.execute eng step ctx).2.getVariable nm = some (.vStr "")) ∧
    (ctx.getVariableString ex.fromVar ≠ "" →
      (eng.execAllGM ex.pattern (ctx.getVariableString ex.fromVar)).map
        (fun m => if m.groups.length > 0 then m.groups else [some m.full]) = [] →
      ∀ nm ∈ (match ex.into with | StrOrList.list vs => vs | StrOrList.str v => [v]),
        (ExtractCommand.execute eng step ctx).2.getVariable nm = some (.vStr "")) ∧
    (∀ m0 ms, ctx.getVariableString ex.fromVar ≠ "" →
      (eng.execAllGM ex.pattern (ctx.getVariableString ex.fromVar)).map
        (fun m => if m.groups.length > 0 then m.groups else [some m.full]) = m0 :: ms →
      jsOrDefault ex.matchOpt "first" = "first" →
      ((match ex.into with
        | StrOrList.list vs => vs | StrOrList.str v => [v]).map toLowerStr).Nodup →
      ∀ p ∈ (match ex.into with
        | StrOrList.list vs => vs | StrOrList.str v => [v]).enum,
        (ExtractCommand.execute eng step ctx).2.getVariable p.2 =
          some (.vStr (groupVal m0 p.1))) ∧
    (∀ m0 ms, ctx.getVariableString ex.fromVar ≠ "" →
      (eng.execAllGM ex.pattern (ctx.getVariableString ex.fromVar)).map
        (fun m => if m.groups.length > 0 then m.groups else [some m.full]) = m0 :: ms →
      ex.matchOpt = some "all" →
      ((match ex.into with
        | StrOrList.list vs => vs | StrOrList.str v => [v]).map toLowerStr).Nodup →
      ∀ p ∈ (match ex.into with
        | StrOrList.list vs => vs | StrOrList.str v => [v]).enum,
        (ExtractCommand.execute eng step ctx).2.getVariable p.2 =
          some (.vList ((m0 :: ms).map (fun m => groupVal m p.1)))) := by
  have hb1 : ¬((ex.fromVar == "") = true) := by simp [h1]
  have hb2 : ¬((ex.pattern == "") = true) := by simp [h2]
  have hb3 : ¬(ex.into.falsy = true) := by simp [h3]
  refine ⟨?_, ?_, ?_, ?_, ?_⟩
  · unfold ExtractCommand.execute
    rw [hx]
    dsimp only
    rw [if_neg hb1, if_neg hb2, if_neg hb3]
    simp only [emitOutput_getVariableString]
    by_cases hsrc : (ctx.getVariableString ex.fromVar == "") = true
    · rw [if_pos hsrc]
    · rw [if_neg hsrc]
      simp only [hv]
      rcases hm : (eng.execAllGM ex.pattern (ctx.getVariableString ex.fromVar)).map
          (fun m => if m.groups.length > 0 then m.groups else [some m.full]) with _ | ⟨m0, ms⟩
      · simp only [hm]
      · simp only [hm]
  · intro hsource nm hmem
    unfold ExtractCommand.execute
    rw [hx]
    dsimp only
    rw [if_neg hb1, if_neg hb2, if_neg hb3]
    simp only [emitOutput_getVariableString]
    rw [if_pos (by simp [hsource])]
    exact setEmptyResults_get ex.into _ nm hmem
  · intro hsource hm nm hmem
    unfold ExtractCommand.execute
    rw [hx]
    dsimp only
    rw [if_neg hb1, if_neg hb2, if_neg hb3]
    simp only [emitOutput_getVariableString]
    rw [if_neg (by simp [hsource])]
    simp only [hv, hm]
    exact setEmptyResults_get ex.into _ nm hmem
  · intro m0 ms hsource hm hfirst hnd p hp
    have hnd' : ((match ex.into with
        | StrOrList.list vs => vs
        | StrOrList.str v => [v]).enum.map (fun q : Nat × String => toLowerStr q.2)).Nodup := by
      rw [enum_map_toLower]
      exact hnd
    unfold ExtractCommand.execute
    rw [hx]
    dsimp only
    rw [if_neg hb1, if_neg hb2, if_neg hb3]
    simp only [emitOutput_getVariableString]
    rw [if_neg (by simp [hsource])]
    simp only [hv, hm]
    rw [hfirst]
    unfold extractSelect
    rw [if_pos (by decide)]
    dsimp only
    unfold extractAssign
    rw [if_neg (by decide)]
    exact assignSingleLoop_get m0 _ _ hnd' p hp
  · intro m0 ms hsource hm hall hnd p hp
    have hnd' : ((match ex.into with
        | StrOrList.list vs => vs
        | StrOrList.str v => [v]).enum.map (fun q : Nat × String => toLowerStr q.2)).Nodup := by
      rw [enum_map_toLower]
      exact hnd
    have hmo : jsOrDefault ex.matchOpt "first" = "all" := by
      rw [hall]
      rfl
    unfold ExtractCommand.execute
    rw [hx]
    dsimp only
    rw [if_neg hb1, if_neg hb2, if_neg hb3]
    simp only [emitOutput_getVariableString]
    rw [if_neg (by simp [hsource])]
    simp only [hv, hm]
    rw [hmo]
    unfold extractSelect
    rw [if_neg (by decide), if_neg (by decide), if_pos (by decide)]
    dsimp only
    unfold extractAssign
    rw [if_pos (by decide)]
    exact assignAllLoop_get (m0 :: ms) _ _ hnd' p hp

/-- C4 witness: on the spec's example (`"a=1\nb=2\na=3"`, pattern
`a=(\d)`), `match: first` yields the first capture `1` and `match: all`
yields `["1", "3"]` in order of appearance. -/
theorem extract_match_selection_witness :
    (ExtractCommand.execute extractExampleEngine extractFirstStep
        extractExampleCtx).2.getVariable "v" = some (.vStr "1") ∧
    (ExtractCommand.execute extractExampleEngine extractAllStep
        extractExampleCtx).2.getVariable "v" = some (.vList ["1", "3"]) := by
  constructor
  · exact (extract_match_selection extractExampleEngine extractFirstStep extractExampleCtx
      ⟨"src", "a=(\\d)", .str "v", none⟩ (by decide) (by decide) (by decide) (by decide)
      (by decide)).2.2.2.1 [some "1"] [[some "3"]] (by decide) (by decide) (by decide)
      (by decide) (0, "v") (by decide)
  · exact (extract_match_selection extractExampleEngine extractAllStep extractExampleCtx
      ⟨"src", "a=(\\d)", .str "v", some "all"⟩ (by decide) (by decide) (by decide) (by decide)
      (by decide)).2.2.2.2 [some "1"] [[some "3"]] (by decide) (by decide) (by decide)
      (by decide) (0, "v") (by decide)
